import Mathlib

/-!
# HTTP proxy base filters

A shallow embedding of `modules/http_proxy_base_filters.go` (bettercap):
the request and response filter chains of the HTTP proxy, the header
sanitizers, the header lookup helper and the `</head>` script injector,
together with the properties of the specification that hold, or fail, on
that code.

## Conventions

* A Go `string` is a sequence of bytes; it is embedded as a `List Char`
  in which every element stands for one byte, so `len` is `List.length`.
  All literals of the source are ASCII.
* A Go `http.Header` (`map[string][]string`) is embedded as an association
  list from field name to value list; the order of the list is the order
  in which `range` visits the map.
* Pointers that the source mutates in place (`*http.Request`,
  `*http.Response`) are embedded by state passing: a function that mutates
  its argument returns the argument's new value.
* The collaborators that live outside the file (the stripper, the proxy
  script, the JS request and response objects) are fields of the records
  below, typed as the specification's interface section types them.
* Calls of collaborators and operations on a response body are recorded in
  an explicit trace, and `p.sess.Events` is an explicit event list, so that
  "is not invoked" and "no event is emitted" are statements about values.
-/

namespace BetterCap

/-- Go `string`: a sequence of bytes, one list element per byte. -/
abbrev GoString := List Char

/-! ## The pieces of Go's `strings` package the source calls -/

namespace strings

/-- Go `strings.Contains(s, substr)`: some suffix of `s` starts with `substr`. -/
def Contains : GoString → GoString → Bool
  | [], substr => substr.isPrefixOf []
  | c :: t, substr => substr.isPrefixOf (c :: t) || Contains t substr

/-- Left-to-right scan of `strings.Replace` for a non-empty `old`: `skip`
counts the bytes of a matched `old` that are still to be dropped. -/
def replaceLoop (old new : GoString) : Nat → GoString → GoString
  | _, [] => []
  | skip + 1, _ :: t => replaceLoop old new skip t
  | 0, c :: t =>
    if old.isPrefixOf (c :: t) then new ++ replaceLoop old new (old.length - 1) t
    else c :: replaceLoop old new 0 t

/-- Go `strings.Replace(s, old, new, -1)`: every non-overlapping occurrence
of `old`, leftmost first, is replaced by `new`.  The source calls it with
the non-empty literal `</head>` only; for an empty `old` (never passed by
the source) the string is returned as it is. -/
def Replace (s old new : GoString) : GoString :=
  if old = [] then s else replaceLoop old new 0 s

/-- Go `strings.ToLower(s)` on ASCII input: the bytes `A`..`Z` are mapped
to `a`..`z`, every other byte is kept.  Go lowers the letters outside ASCII
as well (through its Unicode tables); this function is exact on texts made
of ASCII bytes, such as `Content-Type`, the one name the source looks up.
What is stated of `getHeader` for arbitrary names is stated of
`getHeaderWith`, which takes the lower-casing function as a parameter. -/
def ToLower (s : GoString) : GoString := s.map Char.toLower

/-- Go `strings.Split(s, sep)[0]` for a non-empty `sep`: the part of `s`
before the first occurrence of `sep`, all of `s` when there is none. -/
def SplitHead : GoString → GoString → GoString
  | [], _ => []
  | c :: t, sep => if sep.isPrefixOf (c :: t) then [] else c :: SplitHead t sep

end strings

/-! ## `net/textproto` and `net/http` headers -/

namespace textproto

/-- Codes of the punctuation bytes allowed in a header field name
(`!#$%&'*+-.^_` followed by the backquote, `|` and `~`). -/
def tokenPunctuation : List Nat :=
  [33, 35, 36, 37, 38, 39, 42, 43, 45, 46, 94, 95, 96, 124, 126]

/-- Go `textproto.validHeaderFieldByte`: the byte is an RFC 7230 token
character. -/
def validHeaderFieldByte (c : Char) : Bool :=
  c.isAlphanum || decide (c.toNat ∈ tokenPunctuation)

/-- The casing loop of `canonicalMIMEHeaderKey`: upper case for the first
letter and after each dash, lower case elsewhere. -/
def canonicalLoop : Bool → GoString → GoString
  | _, [] => []
  | upper, c :: t =>
    let c1 := if upper && c.isLower then c.toUpper
              else if !upper && c.isUpper then c.toLower else c
    c1 :: canonicalLoop (c1 == '-') t

/-- Go `textproto.CanonicalMIMEHeaderKey(s)`: a key holding a byte that is
not a token character is returned unchanged, any other key is re-cased. -/
def CanonicalMIMEHeaderKey (s : GoString) : GoString :=
  if s.all validHeaderFieldByte then canonicalLoop true s else s

end textproto

/-- Go `http.Header`, a `map[string][]string`, as an association list. -/
abbrev Header := List (GoString × List GoString)

namespace Header

/-- Map read `h[key]`: the value list stored under exactly `key`, the empty
list (Go's nil slice) when the key is absent. -/
def lookup (h : Header) (key : GoString) : List GoString :=
  match h.find? (fun e => e.1 == key) with
  | some e => e.2
  | none => []

/-- Map delete `delete(h, key)`. -/
def delete (h : Header) (key : GoString) : Header :=
  h.filter (fun e => e.1 != key)

/-- Map write `h[key] = vv`: an existing entry is overwritten in place, a
new key is added. -/
def store (h : Header) (key : GoString) (vv : List GoString) : Header :=
  if h.any (fun e => e.1 == key) then
    h.map (fun e => if e.1 == key then (key, vv) else e)
  else h ++ [(key, vv)]

/-- Go `Header.Del(key)`. -/
def Del (h : Header) (key : GoString) : Header :=
  h.delete (textproto.CanonicalMIMEHeaderKey key)

/-- Go `Header.Set(key, value)`. -/
def Set (h : Header) (key value : GoString) : Header :=
  h.store (textproto.CanonicalMIMEHeaderKey key) [value]

/-- Go `Header.Add(key, value)`: `h[key] = append(h[key], value)` on the
canonical key. -/
def Add (h : Header) (key value : GoString) : Header :=
  h.store (textproto.CanonicalMIMEHeaderKey key)
    (h.lookup (textproto.CanonicalMIMEHeaderKey key) ++ [value])

/-- Go `Header.Values(key)`: the values stored under the canonical key. -/
def Values (h : Header) (key : GoString) : List GoString :=
  h.lookup (textproto.CanonicalMIMEHeaderKey key)

end Header

/-! ## Messages -/

/-- Go `url.URL`, the one field the source reads. -/
structure URL where
  Path : GoString
deriving DecidableEq

/-- Go `http.Request`, the fields the source reads or writes. -/
structure Request where
  RemoteAddr : GoString
  Method : GoString
  Host : GoString
  URL : URL
  Header : Header
deriving DecidableEq

/-- Go `io.ReadCloser` holding a response body: the bytes not yet read, the
error the reader raises instead of a clean end of stream (if any), and
whether `Close` has been called. -/
structure Body where
  pending : GoString
  failure : Option GoString
  closed : Bool
deriving DecidableEq

/-- Go `http.Response`, the fields the source reads or writes.  `Request`
is the request the response answers; the source dereferences it without a
check, so it is always there. -/
structure Response where
  StatusCode : Int
  Header : Header
  Body : Body
  Request : Request
  ContentLength : Int
deriving DecidableEq

/-- Error of `net/http` for a read from a response body that was closed. -/
def errReadOnClosedResBody : GoString := "http: read on closed response body".toList

namespace ioutil

/-- Go `ioutil.ReadAll(body)`: the stream is consumed; the result is every
pending byte, or the stream's error.  Reading a closed body is an error. -/
def ReadAll (b : Body) : Body × Except GoString GoString :=
  if b.closed then (b, .error errReadOnClosedResBody)
  else
    match b.failure with
    | some err => ({ b with pending := [] }, .error err)
    | none => ({ b with pending := [] }, .ok b.pending)

/-- Go `ioutil.NopCloser(bytes.NewBufferString(s))`: a fresh, error-free
stream over `s`. -/
def NopCloser (s : GoString) : Body := { pending := s, failure := none, closed := false }

end ioutil

/-- Go `body.Close()`. -/
def Body.Close (b : Body) : Body := { b with closed := true }

namespace goproxy

/-- Constructor `goproxy.NewResponse(r, contentType, status, body)` of the
goproxy library: a response for `r` whose only header is `Content-Type`,
whose body is `body` and whose `ContentLength` field is `len(body)`. -/
def NewResponse (r : Request) (contentType : GoString) (status : Int) (body : GoString) :
    Response :=
  { Request := r
    Header := Header.Add [] "Content-Type".toList contentType
    StatusCode := status
    ContentLength := body.length
    Body := ioutil.NopCloser body }

end goproxy

/-! ## Collaborators declared outside the file -/

/-- The script-side request object `JSRequest`: the fields the source
reads, and the request its `ToRequest()` method builds. -/
structure JSRequest where
  Method : GoString
  Hostname : GoString
  Path : GoString
  Body : GoString
  ToRequest : Request

/-- The script-side response object `JSResponse`: the field the source
reads, and its `ToResponse(req)` method. -/
structure JSResponse where
  Body : GoString
  ToResponse : Request → Response

/-- The session stripper `p.stripper`: `Preprocess` may answer a request
with a redirect; `Process` rewrites a response in place, so it maps the
response to its new value. -/
structure SSLStripper where
  Preprocess : Request → Option Response
  Process : Response → Response

/-- The proxy script `p.Script`: `OnRequest` and `OnResponse` return a
rewritten request and a fake response, each of which may be nil. -/
structure ProxyScript where
  OnRequest : Request → Option JSRequest × Option JSResponse
  OnResponse : Response → Option JSRequest × Option JSResponse

/-- The receiver `*HTTPProxy`, the fields the source reads. -/
structure HTTPProxy where
  Name : GoString
  jsHook : GoString
  stripper : SSLStripper
  Script : Option ProxyScript

/-! ## Events and the call trace -/

/-- The anonymous struct handed to `p.sess.Events.Add`. -/
structure AuditRecord where
  To : GoString
  Method : GoString
  Host : GoString
  Path : GoString
  Size : Nat
deriving DecidableEq

/-- One call of `p.sess.Events.Add(tag, data)`. -/
structure Event where
  Tag : GoString
  Data : AuditRecord
deriving DecidableEq

/-- The calls the trace records: the sanitizers, the collaborators'
methods, the injector and the two operations on a response body. -/
inductive Call where
  | fixRequestHeaders
  | Preprocess
  | OnRequest
  | fixResponseHeaders
  | Process
  | OnResponse
  | doScriptInjection
  | ReadAll
  | Close
deriving DecidableEq

/-- What a filter run can change outside the message it is given:
`p.sess.Events`, oldest event first, and the trace of calls made so far. -/
structure World where
  Events : List Event
  calls : List Call
deriving DecidableEq

/-- Record one call in the trace. -/
def World.call (w : World) (c : Call) : World := { w with calls := w.calls ++ [c] }

/-- Go `p.sess.Events.Add(tag, data)`. -/
def World.Add (w : World) (tag : GoString) (data : AuditRecord) : World :=
  { w with Events := w.Events ++ [{ Tag := tag, Data := data }] }

/-- The object a returned pointer designates: the very argument the filter
was given (as the call left it), or another message. -/
inductive Ref (α : Type) where
  | arg
  | other (a : α)
deriving DecidableEq

/-! ## The source file

The `log.Debug`, `log.Info` and `log.Error` lines write to the process log
only; they read fields and change nothing, and are left out. -/

/-- Source `(p *HTTPProxy) fixRequestHeaders(req)`: the request after the
four `Del` and the `Set`. -/
def fixRequestHeaders (req : Request) : Request :=
  let h := req.Header.Del "Accept-Encoding".toList
  let h := h.Del "If-None-Match".toList
  let h := h.Del "If-Modified-Since".toList
  let h := h.Del "Upgrade-Insecure-Requests".toList
  let h := h.Set "Pragma".toList "no-cache".toList
  { req with Header := h }

/-- Source `(p *HTTPProxy) fixResponseHeaders(res)`: the response after the
twelve `Del` and the four `Set`. -/
def fixResponseHeaders (res : Response) : Response :=
  let h := res.Header.Del "Content-Security-Policy-Report-Only".toList
  let h := h.Del "Content-Security-Policy".toList
  let h := h.Del "Strict-Transport-Security".toList
  let h := h.Del "Public-Key-Pins".toList
  let h := h.Del "Public-Key-Pins-Report-Only".toList
  let h := h.Del "X-Frame-Options".toList
  let h := h.Del "X-Content-Type-Options".toList
  let h := h.Del "X-WebKit-CSP".toList
  let h := h.Del "X-Content-Security-Policy".toList
  let h := h.Del "X-Download-Options".toList
  let h := h.Del "X-Permitted-Cross-Domain-Policies".toList
  let h := h.Del "X-Xss-Protection".toList
  let h := h.Set "Allow-Access-From-Same-Origin".toList "*".toList
  let h := h.Set "Access-Control-Allow-Origin".toList "*".toList
  let h := h.Set "Access-Control-Allow-Methods".toList "*".toList
  let h := h.Set "Access-Control-Allow-Headers".toList "*".toList
  { res with Header := h }

/-- Inner loop of `getHeader` over the values of one header: the first
value is returned when the lower-cased name is the wanted one. -/
def getHeaderValues (name header : GoString) : List GoString → Option GoString
  | [] => none
  | value :: rest =>
    if strings.ToLower name = header then some value else getHeaderValues name header rest

/-- Outer loop of `getHeader` over the headers, in the map's iteration
order; the empty string when the loops end without a `return`. -/
def getHeaderLoop (header : GoString) : Header → GoString
  | [] => []
  | (name, values) :: rest =>
    match getHeaderValues name header values with
    | some value => value
    | none => getHeaderLoop header rest

/-- Source `(p *HTTPProxy) getHeader(res, header)`. -/
def getHeader (res : Response) (header : GoString) : GoString :=
  getHeaderLoop (strings.ToLower header) res.Header

/-- Inner loop of `getHeader`, with the library function `strings.ToLower`
as the parameter `lower`. -/
def getHeaderValuesWith (lower : GoString → GoString) (name header : GoString) :
    List GoString → Option GoString
  | [] => none
  | value :: rest =>
    if lower name = header then some value else getHeaderValuesWith lower name header rest

/-- Outer loop of `getHeader`, with the library function `strings.ToLower`
as the parameter `lower`. -/
def getHeaderLoopWith (lower : GoString → GoString) (header : GoString) : Header → GoString
  | [] => []
  | (name, values) :: rest =>
    match getHeaderValuesWith lower name header values with
    | some value => value
    | none => getHeaderLoopWith lower header rest

/-- Source `(p *HTTPProxy) getHeader(res, header)`, with the library
function `strings.ToLower` as the parameter `lower`: Go's own function, with
its Unicode tables, is one such `lower`, and `getHeader` above is the
instance at the ASCII function of this file. -/
def getHeaderWith (lower : GoString → GoString) (res : Response) (header : GoString) :
    GoString :=
  getHeaderLoopWith lower (lower header) res.Header

/-- Source `(p *HTTPProxy) isScriptInjectable(res)`. -/
def isScriptInjectable (p : HTTPProxy) (res : Response) : Bool × GoString :=
  if p.jsHook = [] then (false, [])
  else
    let contentType := getHeader res "Content-Type".toList
    if strings.Contains contentType "text/html".toList then (true, contentType)
    else (false, [])

/-- The header copy of `doScriptInjection`: `newResp.Header.Add(k, v)` for
every value `v` of every header `k` of the original, in iteration order. -/
def copyHeaders (src : Header) (newResp : Response) : Response :=
  src.foldl (fun r kvv => kvv.2.foldl (fun r v => { r with Header := r.Header.Add kvv.1 v }) r)
    newResp

/-- What `doScriptInjection` hands back: the world, the response it was
given as the call leaves it, and the returned pair `(error, *http.Response)`. -/
structure Injection where
  world : World
  res : Response
  err : Option GoString
  newResp : Option Response
deriving DecidableEq

/-- Source `(p *HTTPProxy) doScriptInjection(res, cType)`.  The deferred
`res.Body.Close()` runs on every return; nothing between the read and the
return looks at the body, so it is applied right after the read. -/
def doScriptInjection (p : HTTPProxy) (w : World) (res : Response) (cType : GoString) :
    Injection :=
  let w := w.call Call.doScriptInjection
  let read := ioutil.ReadAll res.Body
  let w := (w.call Call.ReadAll).call Call.Close
  let res1 := { res with Body := read.1.Close }
  match read.2 with
  | .error err => { world := w, res := res1, err := some err, newResp := none }
  | .ok raw =>
    if strings.Contains raw "</head>".toList then
      let html := strings.Replace raw "</head>".toList p.jsHook
      let newResp := goproxy.NewResponse res.Request cType res.StatusCode html
      let newResp := copyHeaders res.Header newResp
      { world := w, res := res1, err := none, newResp := some newResp }
    else { world := w, res := res1, err := none, newResp := none }

/-- Source `(p *HTTPProxy) logRequestAction(req, jsreq)`. -/
def logRequestAction (p : HTTPProxy) (w : World) (req : Request) (jsreq : JSRequest) : World :=
  w.Add (p.Name ++ ".spoofed-request".toList)
    { To := strings.SplitHead req.RemoteAddr ":".toList
      Method := jsreq.Method
      Host := jsreq.Hostname
      Path := jsreq.Path
      Size := jsreq.Body.length }

/-- Source `(p *HTTPProxy) logResponseAction(req, jsres)`. -/
def logResponseAction (p : HTTPProxy) (w : World) (req : Request) (jsres : JSResponse) : World :=
  w.Add (p.Name ++ ".spoofed-response".toList)
    { To := strings.SplitHead req.RemoteAddr ":".toList
      Method := req.Method
      Host := req.Host
      Path := req.URL.Path
      Size := jsres.Body.length }

/-- What `onRequestFilter` hands back: the world, the request it was given
as the call leaves it, and the returned pair `(*http.Request,
*http.Response)`. -/
structure RequestFiltered where
  world : World
  req : Request
  retReq : Ref Request
  retRes : Option Response
deriving DecidableEq

/-- Source `(p *HTTPProxy) onRequestFilter(req, ctx)`. -/
def onRequestFilter (p : HTTPProxy) (w : World) (req : Request) : RequestFiltered :=
  let req := fixRequestHeaders req
  let w := w.call Call.fixRequestHeaders
  let redir := p.stripper.Preprocess req
  let w := w.call Call.Preprocess
  match redir with
  | some redir => { world := w, req := req, retReq := Ref.arg, retRes := some redir }
  | none =>
    match p.Script with
    | none => { world := w, req := req, retReq := Ref.arg, retRes := none }
    | some script =>
      let js := script.OnRequest req
      let w := w.call Call.OnRequest
      match js.1, js.2 with
      | some jsreq, _ =>
        { world := logRequestAction p w req jsreq, req := req,
          retReq := Ref.other jsreq.ToRequest, retRes := none }
      | none, some jsres =>
        { world := logResponseAction p w req jsres, req := req,
          retReq := Ref.arg, retRes := some (jsres.ToResponse req) }
      | none, none => { world := w, req := req, retReq := Ref.arg, retRes := none }

/-- What `onResponseFilter` hands back: the world, the response it was
given (nil or not) as the call leaves it, and the returned pointer. -/
structure ResponseFiltered where
  world : World
  res : Option Response
  ret : Ref Response
deriving DecidableEq

/-- The last stage of `onResponseFilter`: javascript injection "if
specified and needed", then the fall-through `return res`. -/
def injectStage (p : HTTPProxy) (w : World) (res : Response) : ResponseFiltered :=
  let inj := isScriptInjectable p res
  if inj.1 then
    let r := doScriptInjection p w res inj.2
    match r.err, r.newResp with
    | some _, _ => { world := r.world, res := some r.res, ret := Ref.arg }
    | none, some injectedResponse =>
      { world := r.world, res := some r.res, ret := Ref.other injectedResponse }
    | none, none => { world := r.world, res := some r.res, ret := Ref.arg }
  else { world := w, res := some res, ret := Ref.arg }

/-- Source `(p *HTTPProxy) onResponseFilter(res, ctx)`. -/
def onResponseFilter (p : HTTPProxy) (w : World) (res : Option Response) : ResponseFiltered :=
  match res with
  | none => { world := w, res := none, ret := Ref.arg }
  | some res =>
    let res := fixResponseHeaders res
    let w := w.call Call.fixResponseHeaders
    let res := p.stripper.Process res
    let w := w.call Call.Process
    match p.Script with
    | some script =>
      let js := script.OnResponse res
      let w := w.call Call.OnResponse
      match js.2 with
      | some jsres =>
        { world := logResponseAction p w res.Request jsres, res := some res,
          ret := Ref.other (jsres.ToResponse res.Request) }
      | none => injectStage p w res
    | none => injectStage p w res

/-! ## Derived notions used to state the properties -/

/-- All values that `h` stores under a name whose canonical form is that of
`key`, in iteration order. -/
def Header.gather (key : GoString) : Header → List GoString
  | [] => []
  | (k, vv) :: rest =>
    if textproto.CanonicalMIMEHeaderKey k = textproto.CanonicalMIMEHeaderKey key then
      vv ++ Header.gather key rest
    else Header.gather key rest

/-- The values `vv` added one by one under `k`, as the inner loop of the
header copy does. -/
def Header.addAll (h : Header) (k : GoString) (vv : List GoString) : Header :=
  vv.foldl (fun h v => h.Add k v) h

/-- The header map the copy loops of `doScriptInjection` build on top of
`dst` from the headers `src`. -/
def Header.merge (src dst : Header) : Header :=
  src.foldl (fun h kvv => h.addAll kvv.1 kvv.2) dst

/-- Go `strconv.Itoa` on a length: its decimal digits. -/
def Itoa (n : Nat) : GoString := (Nat.repr n).toList

/-- No entry of `h` has the name `key`. -/
def Header.absent (h : Header) (key : GoString) : Prop :=
  ∀ e ∈ h, e.1 ≠ key

/-- Some entry of `h` has the name `key`, and every such entry holds
exactly the values `vv`. -/
def Header.pinned (h : Header) (key : GoString) (vv : List GoString) : Prop :=
  h.any (fun e => e.1 == key) = true ∧ ∀ e ∈ h, e.1 = key → e = (key, vv)

/-- The script stage of onRequestFilter is reached and the script's
OnRequest yields a rewritten request or a fake response. -/
def scriptRequestReply (p : HTTPProxy) (req : Request) : Bool :=
  match p.stripper.Preprocess (fixRequestHeaders req), p.Script with
  | none, some script =>
    (script.OnRequest (fixRequestHeaders req)).1.isSome
      || (script.OnRequest (fixRequestHeaders req)).2.isSome
  | _, _ => false

/-- The response is not nil, a script is configured and its OnResponse
yields a replacement response. -/
def scriptResponseReply (p : HTTPProxy) (res : Option Response) : Bool :=
  match res, p.Script with
  | some res, some script =>
    (script.OnResponse (p.stripper.Process (fixResponseHeaders res))).2.isSome
  | _, _ => false

/-- The stored names fixRequestHeaders works on: the canonical forms of the
four names it deletes and of the one it sets. -/
def requestSanitized : List GoString :=
  (["Accept-Encoding", "If-None-Match", "If-Modified-Since",
   "Upgrade-Insecure-Requests", "Pragma"]).map
    (fun s => textproto.CanonicalMIMEHeaderKey s.toList)

/-- The stored names fixResponseHeaders works on: the canonical forms of the
twelve names it deletes and of the four it sets. -/
def responseSanitized : List GoString :=
  (["Content-Security-Policy-Report-Only", "Content-Security-Policy",
   "Strict-Transport-Security", "Public-Key-Pins", "Public-Key-Pins-Report-Only",
   "X-Frame-Options", "X-Content-Type-Options", "X-WebKit-CSP",
   "X-Content-Security-Policy", "X-Download-Options",
   "X-Permitted-Cross-Domain-Policies", "X-Xss-Protection",
   "Allow-Access-From-Same-Origin", "Access-Control-Allow-Origin",
   "Access-Control-Allow-Methods", "Access-Control-Allow-Headers"]).map
    (fun s => textproto.CanonicalMIMEHeaderKey s.toList)

/-- The headers of `h` stored under a name that is not in `names`, in
iteration order. -/
def Header.except (h : Header) (names : List GoString) : Header :=
  h.filter (fun e => !names.contains e.1)

/-- The first header of `h`, in iteration order, that has at least one
value and whose name equals `name` ignoring letter case, that is, has the
same image under the lower-casing function `lower`. -/
def Header.firstNamedWith (lower : GoString → GoString) (h : Header) (name : GoString) :
    Option (GoString × List GoString) :=
  h.find? (fun e => decide (lower e.1 = lower name) && !e.2.isEmpty)

/-- The four names fixRequestHeaders deletes, as the source spells them. -/
def requestRemoved : List GoString :=
  ["Accept-Encoding".toList,
   "If-None-Match".toList,
   "If-Modified-Since".toList,
   "Upgrade-Insecure-Requests".toList]

/-- The twelve names fixResponseHeaders deletes, as the source spells them. -/
def securityHeaders : List GoString :=
  ["Content-Security-Policy-Report-Only".toList,
   "Content-Security-Policy".toList,
   "Strict-Transport-Security".toList,
   "Public-Key-Pins".toList,
   "Public-Key-Pins-Report-Only".toList,
   "X-Frame-Options".toList,
   "X-Content-Type-Options".toList,
   "X-WebKit-CSP".toList,
   "X-Content-Security-Policy".toList,
   "X-Download-Options".toList,
   "X-Permitted-Cross-Domain-Policies".toList,
   "X-Xss-Protection".toList]

/-- The four names fixResponseHeaders sets, as the source spells them. -/
def corsHeaders : List GoString :=
  ["Allow-Access-From-Same-Origin".toList,
   "Access-Control-Allow-Origin".toList,
   "Access-Control-Allow-Methods".toList,
   "Access-Control-Allow-Headers".toList]

/-- Every name of `h` is stored in canonical MIME form, as `net/http` stores
the names of the headers it parses. -/
def Header.canonical (h : Header) : Prop :=
  ∀ e ∈ h, textproto.CanonicalMIMEHeaderKey e.1 = e.1

/-- In the specification's words, "the client address without its port":
`RemoteAddr` has the form `host:port`, and the port is what follows the last
colon; the address is what stands before that colon. -/
def withoutPort : GoString → GoString
  | [] => []
  | c :: t => if c = ':' ∧ ':' ∉ t then [] else c :: withoutPort t

/-! ## Sample messages for the concrete checks -/

/-- A request from client `1.2.3.4`, port 9999. -/
def sampleRequest : Request :=
  { RemoteAddr := "1.2.3.4:9999".toList
    Method := "GET".toList
    Host := "site.test".toList
    URL := { Path := "/index.html".toList }
    Header := [("Accept-Encoding".toList, ["gzip".toList])] }

/-- The 39-byte page of the specification's injection example. -/
def sampleHTML : GoString := "<html><head></head><body></body></html>".toList

/-- A 200 response carrying `body` as `text/html; charset=utf-8`, with a
`Content-Length` header giving the body's length and two cookies. -/
def htmlResponse (body : GoString) : Response :=
  { StatusCode := 200
    Header := [("Content-Type".toList, ["text/html; charset=utf-8".toList]),
               ("Content-Length".toList, [Itoa body.length]),
               ("Set-Cookie".toList, ["a=1".toList, "b=2".toList])]
    Body := ioutil.NopCloser body
    Request := sampleRequest
    ContentLength := body.length }

/-- A stripper that never redirects and leaves responses alone. -/
def idleStripper : SSLStripper := { Preprocess := fun _ => none, Process := fun res => res }

/-- A proxy named `http.proxy` with the given hook string, an idle stripper
and no script. -/
def hookProxy (jsHook : GoString) : HTTPProxy :=
  { Name := "http.proxy".toList, jsHook := jsHook, stripper := idleStripper, Script := none }

/-- The world before any event or call. -/
def World.empty : World := { Events := [], calls := [] }

/-- A page without the `</head>` marker. -/
def plainPage : GoString := "<html><body>no marker here</body></html>".toList

/-- A 302 answer to the sample request, as a stripper would force. -/
def redirectResponse : Response :=
  goproxy.NewResponse sampleRequest "text/html".toList 302 []

/-- A stripper whose `Preprocess` always redirects. -/
def redirectStripper : SSLStripper :=
  { Preprocess := fun _ => some redirectResponse, Process := fun res => res }

/-- The rewritten request of the specification's tagging example: `POST`
to `evil.test/x` with a 5-byte body. -/
def spoofedRequest : JSRequest :=
  { Method := "POST".toList
    Hostname := "evil.test".toList
    Path := "/x".toList
    Body := "hello".toList
    ToRequest :=
      { RemoteAddr := "1.2.3.4:9999".toList
        Method := "POST".toList
        Host := "evil.test".toList
        URL := { Path := "/x".toList }
        Header := [] } }

/-- A script whose `OnRequest` rewrites every request to `spoofedRequest`
and whose `OnResponse` does nothing. -/
def rewriteScript : ProxyScript :=
  { OnRequest := fun _ => (some spoofedRequest, none), OnResponse := fun _ => (none, none) }

/-- A 200 response carrying the JSON array `[1, 2, 3]` as
`application/json`. -/
def jsonResponse : Response :=
  { StatusCode := 200
    Header := [("Content-Type".toList, ["application/json".toList])]
    Body := ioutil.NopCloser "[1, 2, 3]".toList
    Request := sampleRequest
    ContentLength := 9 }

/-- The sample HTML response on a connection that breaks while the body is
read. -/
def brokenResponse : Response :=
  { htmlResponse sampleHTML with
    Body := { pending := "<html><he".toList, failure := some "unexpected EOF".toList,
              closed := false } }

/-- A script-made response with the 4-byte body `fake`. -/
def fakeResponse : JSResponse :=
  { Body := "fake".toList
    ToResponse := fun req => goproxy.NewResponse req "text/plain".toList 200 "fake".toList }

/-- A script whose `OnRequest` answers every request with `fakeResponse`
and whose `OnResponse` replaces every response by `fakeResponse`. -/
def fakeScript : ProxyScript :=
  { OnRequest := fun _ => (none, some fakeResponse)
    OnResponse := fun _ => (none, some fakeResponse) }

/-- A script whose `OnRequest` yields both `spoofedRequest` and
`fakeResponse`. -/
def bothScript : ProxyScript :=
  { OnRequest := fun _ => (some spoofedRequest, some fakeResponse)
    OnResponse := fun _ => (none, none) }

/-- A 200 response whose Content-Type is spelled `TEXT/HTML`. -/
def upperCaseResponse : Response :=
  { htmlResponse sampleHTML with Header := [("Content-Type".toList, ["TEXT/HTML".toList])] }

/-- A 200 response whose Content-Type header has one value, the empty
string. -/
def emptyTypeResponse : Response :=
  { htmlResponse sampleHTML with Header := [("Content-Type".toList, [[]])] }

/-- The sample request with its `Accept-Encoding` header stored under the
lower-case name `accept-encoding`. -/
def lowerCaseRequest : Request :=
  { sampleRequest with Header := [("accept-encoding".toList, ["gzip".toList])] }

/-- The sample request sent by the IPv6 client `[::1]`, port 8080. -/
def ipv6Request : Request :=
  { sampleRequest with RemoteAddr := "[::1]:8080".toList }

/-- The sample HTML response with three headers: `Content-Type`, a header
`X-Empty` that has no value, and one value stored under the lower-case name
`x-custom`. -/
def sparseResponse : Response :=
  { htmlResponse sampleHTML with
    Header := [("Content-Type".toList, ["text/html".toList]),
               ("X-Empty".toList, []),
               ("x-custom".toList, ["1".toList])] }

/-- A response that stores its names in canonical form: a content type, the
security header `X-Frame-Options` and a CORS header with a single origin. -/
def securedResponse : Response :=
  { htmlResponse sampleHTML with
    Header := [("Content-Type".toList, ["text/html".toList]),
               ("X-Frame-Options".toList, ["DENY".toList]),
               ("Access-Control-Allow-Origin".toList, ["https://site.test".toList])] }

/-- A response that stores names as they were spelled, not in canonical
form: `x-frame-options`, `X-WebKit-CSP` and `access-control-allow-origin`. -/
def rawNamesResponse : Response :=
  { htmlResponse sampleHTML with
    Header := [("x-frame-options".toList, ["DENY".toList]),
               ("X-WebKit-CSP".toList, ["default-src".toList]),
               ("access-control-allow-origin".toList, ["https://site.test".toList])] }

/-! ## Lemmas on the header copy -/

theorem copyHeaders_inner (k : GoString) (vv : List GoString) (r : Response) :
    vv.foldl (fun r v => { r with Header := r.Header.Add k v }) r
      = { r with Header := r.Header.addAll k vv } := by
  induction vv generalizing r with
  | nil => rfl
  | cons v vs ih => simp only [List.foldl_cons, ih, Header.addAll]

theorem copyHeaders_eq (src : Header) (r : Response) :
    copyHeaders src r = { r with Header := Header.merge src r.Header } := by
  unfold copyHeaders
  induction src generalizing r with
  | nil => rfl
  | cons e es ih =>
    rw [List.foldl_cons, ih, copyHeaders_inner]
    rfl

/-- Shape of a successful injection: when the body reads as `html` and
`html` holds the marker, the rebuilt response is `NewResponse` over the
replaced text with the merged headers. -/
theorem doScriptInjection_ok (p : HTTPProxy) (w : World) (res : Response) (cType html : GoString)
    (hread : (ioutil.ReadAll res.Body).2 = .ok html)
    (hmark : strings.Contains html "</head>".toList = true) :
    (doScriptInjection p w res cType).err = none ∧
    (doScriptInjection p w res cType).newResp = some
      { goproxy.NewResponse res.Request cType res.StatusCode
          (strings.Replace html "</head>".toList p.jsHook) with
        Header := Header.merge res.Header
          (goproxy.NewResponse res.Request cType res.StatusCode
            (strings.Replace html "</head>".toList p.jsHook)).Header } := by
  simp only [doScriptInjection, hread, hmark, copyHeaders_eq, if_true, and_self]

/-! ## Lemmas on header maps -/

theorem Header.lookup_cons (e : GoString × List GoString) (t : Header) (c : GoString) :
    Header.lookup (e :: t) c = if e.1 = c then e.2 else Header.lookup t c := by
  by_cases hc : e.1 = c <;> simp [Header.lookup, List.find?_cons, hc]

theorem Header.lookup_rewrite_ne (h : Header) (key c : GoString) (vv : List GoString)
    (hc : c ≠ key) :
    Header.lookup (h.map (fun e => if e.1 == key then (key, vv) else e)) c = Header.lookup h c := by
  induction h with
  | nil => rfl
  | cons e t ih =>
    rw [List.map_cons, Header.lookup_cons, Header.lookup_cons, ih]
    by_cases hek : e.1 = key
    · have h1 : key ≠ c := fun hkc => hc hkc.symm
      have h2 : e.1 ≠ c := fun hkc => hc (hkc.symm.trans hek)
      simp [hek, h1, h2]
    · simp [hek]

theorem Header.lookup_rewrite_eq (h : Header) (key : GoString) (vv : List GoString)
    (hany : h.any (fun e => e.1 == key) = true) :
    Header.lookup (h.map (fun e => if e.1 == key then (key, vv) else e)) key = vv := by
  induction h with
  | nil => simp at hany
  | cons e t ih =>
    rw [List.map_cons, Header.lookup_cons]
    by_cases hek : e.1 = key
    · simp [hek]
    · have ht : t.any (fun e => e.1 == key) = true := by
        simpa [List.any_cons, hek] using hany
      have hb : (e.1 == key) = false := by simpa using hek
      simp only [hb, Bool.false_eq_true, if_false]
      rw [if_neg hek]
      exact ih ht

theorem Header.lookup_append_new (h : Header) (key c : GoString) (vv : List GoString)
    (hany : h.any (fun e => e.1 == key) = false) :
    Header.lookup (h ++ [(key, vv)]) c = if c = key then vv else Header.lookup h c := by
  induction h with
  | nil =>
    by_cases hc : c = key
    · simp [Header.lookup, hc]
    · have h1 : key ≠ c := fun hkc => hc hkc.symm
      simp [Header.lookup, hc, h1]
  | cons e t ih =>
    have hek : e.1 ≠ key := by
      intro hek
      simp [List.any_cons, hek] at hany
    have ht : t.any (fun e => e.1 == key) = false := by
      simpa [List.any_cons, hek] using hany
    rw [List.cons_append, Header.lookup_cons, Header.lookup_cons, ih ht]
    by_cases hc : c = key
    · have h2 : e.1 ≠ c := fun hkc => hek (hkc.trans hc)
      simp [hc, h2, hek]
    · simp [hc]

/-- Reading a map after a write: the written key holds the written values,
every other key holds what it held. -/
theorem Header.lookup_store (h : Header) (key c : GoString) (vv : List GoString) :
    Header.lookup (h.store key vv) c = if c = key then vv else Header.lookup h c := by
  unfold Header.store
  by_cases hany : h.any (fun e => e.1 == key) = true
  · rw [if_pos hany]
    by_cases hc : c = key
    · rw [if_pos hc, hc, Header.lookup_rewrite_eq h key vv hany]
    · rw [if_neg hc, Header.lookup_rewrite_ne h key c vv hc]
  · rw [if_neg hany]
    exact Header.lookup_append_new h key c vv (Bool.eq_false_iff.mpr hany)

theorem Header.lookup_Add (h : Header) (k v c : GoString) :
    Header.lookup (h.Add k v) c
      = if c = textproto.CanonicalMIMEHeaderKey k then Header.lookup h c ++ [v]
        else Header.lookup h c := by
  unfold Header.Add
  rw [Header.lookup_store]
  by_cases hc : c = textproto.CanonicalMIMEHeaderKey k
  · simp [hc]
  · simp [hc]

theorem Header.lookup_addAll (h : Header) (k c : GoString) (vv : List GoString) :
    Header.lookup (h.addAll k vv) c
      = if c = textproto.CanonicalMIMEHeaderKey k then Header.lookup h c ++ vv
        else Header.lookup h c := by
  unfold Header.addAll
  induction vv generalizing h with
  | nil => simp
  | cons v vs ih =>
    rw [List.foldl_cons, ih, Header.lookup_Add]
    by_cases hc : c = textproto.CanonicalMIMEHeaderKey k
    · simp [hc]
    · simp [hc]

/-- Reading the merged map under the canonical form of `key`: what the
destination held, then every value the source stores under a name with that
canonical form, in iteration order. -/
theorem Header.lookup_merge (src dst : Header) (key : GoString) :
    Header.lookup (Header.merge src dst) (textproto.CanonicalMIMEHeaderKey key)
      = Header.lookup dst (textproto.CanonicalMIMEHeaderKey key) ++ Header.gather key src := by
  unfold Header.merge
  induction src generalizing dst with
  | nil => simp [Header.gather]
  | cons e es ih =>
    obtain ⟨k, vv⟩ := e
    rw [List.foldl_cons, ih, Header.lookup_addAll]
    by_cases hk : textproto.CanonicalMIMEHeaderKey k = textproto.CanonicalMIMEHeaderKey key
    · simp [Header.gather, hk]
    · have hk2 : textproto.CanonicalMIMEHeaderKey key ≠ textproto.CanonicalMIMEHeaderKey k :=
        fun h => hk h.symm
      simp [Header.gather, hk, hk2]

theorem Header.sublist_gather (src : Header) (k : GoString) (vv : List GoString)
    (hmem : (k, vv) ∈ src) : vv.Sublist (Header.gather k src) := by
  induction src with
  | nil => simp at hmem
  | cons e es ih =>
    obtain ⟨k1, vv1⟩ := e
    rcases List.mem_cons.mp hmem with heq | htl
    · obtain ⟨hk, hv⟩ := Prod.mk.inj heq
      subst hk
      subst hv
      simp only [Header.gather, if_true]
      exact List.sublist_append_left _ _
    · by_cases hk : textproto.CanonicalMIMEHeaderKey k1 = textproto.CanonicalMIMEHeaderKey k
      · simp only [Header.gather, hk, if_true]
        exact (ih htl).trans (List.sublist_append_right _ _)
      · simp only [Header.gather, hk, if_false]
        exact ih htl

theorem Header.key_of_lookup (h : Header) (c : GoString) (hne : Header.lookup h c ≠ []) :
    c ∈ h.map Prod.fst := by
  induction h with
  | nil => simp [Header.lookup] at hne
  | cons e t ih =>
    rw [Header.lookup_cons] at hne
    by_cases hc : e.1 = c
    · simp [hc.symm]
    · rw [if_neg hc] at hne
      simp [ih hne]

/-- Every replacement `doScriptInjection` returns is `NewResponse` over a
replaced text with the merged headers. -/
theorem doScriptInjection_some (p : HTTPProxy) (w : World) (res : Response) (cType : GoString)
    (newResp : Response) (hinj : (doScriptInjection p w res cType).newResp = some newResp) :
    ∃ html, (ioutil.ReadAll res.Body).2 = .ok html ∧
      strings.Contains html "</head>".toList = true ∧
      newResp = { goproxy.NewResponse res.Request cType res.StatusCode
          (strings.Replace html "</head>".toList p.jsHook) with
        Header := Header.merge res.Header
          (goproxy.NewResponse res.Request cType res.StatusCode
            (strings.Replace html "</head>".toList p.jsHook)).Header } := by
  cases hread : (ioutil.ReadAll res.Body).2 with
  | error err => simp [doScriptInjection, hread] at hinj
  | ok html =>
    by_cases hmark : strings.Contains html "</head>".toList = true
    · have hok := (doScriptInjection_ok p w res cType html hread hmark).2
      rw [hok] at hinj
      exact ⟨html, rfl, hmark, (Option.some.inj hinj).symm⟩
    · have hb : strings.Contains html "</head>".toList = false := Bool.eq_false_iff.mpr hmark
      simp only [doScriptInjection, hread, hb, Bool.false_eq_true, if_false] at hinj
      exact absurd hinj (by simp)

/-- Reading the rebuilt response's headers under the canonical form of
`key`: what `NewResponse` put there, then the original's values. -/
theorem doScriptInjection_Values (p : HTTPProxy) (w : World) (res : Response)
    (cType : GoString) (newResp : Response)
    (hinj : (doScriptInjection p w res cType).newResp = some newResp) (key : GoString) :
    newResp.Header.Values key
      = Header.lookup (Header.Add [] "Content-Type".toList cType)
          (textproto.CanonicalMIMEHeaderKey key) ++ Header.gather key res.Header := by
  obtain ⟨html, _, _, hnew⟩ := doScriptInjection_some p w res cType newResp hinj
  rw [hnew]
  exact Header.lookup_merge res.Header _ key

/-! ## Lemmas on the sanitizers: deleting an absent header and setting a
header that already has the value change nothing -/

theorem Header.delete_of_absent (h : Header) (key : GoString) (ha : h.absent key) :
    h.delete key = h := by
  unfold Header.delete
  rw [List.filter_eq_self]
  intro e he
  simpa using ha e he

theorem Header.store_of_pinned (h : Header) (key : GoString) (vv : List GoString)
    (hp : h.pinned key vv) : h.store key vv = h := by
  unfold Header.store
  rw [if_pos hp.1]
  conv_rhs => rw [← List.map_id h]
  apply List.map_congr_left
  intro e he
  by_cases hek : e.1 = key
  · have hb : (e.1 == key) = true := by simpa using hek
    rw [if_pos hb]
    exact (hp.2 e he hek).symm
  · have hb : ¬ (e.1 == key) = true := by simpa using hek
    rw [if_neg hb]
    rfl

theorem Header.absent_delete_self (h : Header) (key : GoString) :
    (h.delete key).absent key := by
  intro e he
  have := (List.mem_filter.mp he).2
  simpa using this

theorem Header.absent_delete (h : Header) (key c : GoString) (ha : h.absent c) :
    (h.delete key).absent c :=
  fun e he => ha e (List.mem_filter.mp he).1

theorem Header.mem_store (h : Header) (key : GoString) (vv : List GoString)
    (e : GoString × List GoString) (he : e ∈ h.store key vv) :
    e = (key, vv) ∨ (e ∈ h ∧ e.1 ≠ key) := by
  unfold Header.store at he
  split at he
  · obtain ⟨e0, he0, hmap⟩ := List.mem_map.mp he
    by_cases hek : e0.1 = key
    · have hb : (e0.1 == key) = true := by simpa using hek
      rw [if_pos hb] at hmap
      exact Or.inl hmap.symm
    · have hb : ¬ (e0.1 == key) = true := by simpa using hek
      rw [if_neg hb] at hmap
      subst hmap
      exact Or.inr ⟨he0, hek⟩
  · rename_i hany
    rcases List.mem_append.mp he with hl | hr
    · refine Or.inr ⟨hl, fun hek => hany ?_⟩
      exact List.any_eq_true.mpr ⟨e, hl, by simpa using hek⟩
    · exact Or.inl (List.mem_singleton.mp hr)

theorem Header.absent_store (h : Header) (key c : GoString) (vv : List GoString)
    (hc : c ≠ key) (ha : h.absent c) : (h.store key vv).absent c := by
  intro e he
  rcases Header.mem_store h key vv e he with heq | ⟨hin, _⟩
  · rw [heq]
    exact fun hkc => hc hkc.symm
  · exact ha e hin

theorem Header.any_store (h : Header) (key c : GoString) (vv : List GoString)
    (hany : h.any (fun e => e.1 == c) = true) :
    (h.store key vv).any (fun e => e.1 == c) = true := by
  obtain ⟨e, he, hec⟩ := List.any_eq_true.mp hany
  unfold Header.store
  split
  · by_cases hek : e.1 = key
    · refine List.any_eq_true.mpr ⟨(key, vv), List.mem_map.mpr ⟨e, he, ?_⟩, ?_⟩
      · have hb : (e.1 == key) = true := by simpa using hek
        rw [if_pos hb]
      · have h1 : e.1 = c := by simpa using hec
        simpa using hek.symm.trans h1
    · refine List.any_eq_true.mpr ⟨e, List.mem_map.mpr ⟨e, he, ?_⟩, hec⟩
      have hb : ¬ (e.1 == key) = true := by simpa using hek
      rw [if_neg hb]
  · exact List.any_eq_true.mpr ⟨e, List.mem_append.mpr (Or.inl he), hec⟩

theorem Header.pinned_store_self (h : Header) (key : GoString) (vv : List GoString) :
    (h.store key vv).pinned key vv := by
  constructor
  · unfold Header.store
    split
    · rename_i hany
      obtain ⟨e, he, hek⟩ := List.any_eq_true.mp hany
      refine List.any_eq_true.mpr ⟨(key, vv), List.mem_map.mpr ⟨e, he, ?_⟩, by simp⟩
      rw [if_pos hek]
    · simp
  · intro e he hek
    rcases Header.mem_store h key vv e he with heq | ⟨_, hne⟩
    · exact heq
    · exact absurd hek hne

theorem Header.pinned_store (h : Header) (key c : GoString) (vv ww : List GoString)
    (hc : c ≠ key) (hp : h.pinned c ww) : (h.store key vv).pinned c ww := by
  refine ⟨Header.any_store h key c vv hp.1, ?_⟩
  intro e he hec
  rcases Header.mem_store h key vv e he with heq | ⟨hin, _⟩
  · rw [heq] at hec
    exact absurd hec.symm hc
  · exact hp.2 e hin hec

theorem Header.Del_fixed (h : Header) (key : GoString)
    (ha : h.absent (textproto.CanonicalMIMEHeaderKey key)) : h.Del key = h :=
  Header.delete_of_absent h _ ha

theorem Header.Set_fixed (h : Header) (key value : GoString)
    (hp : h.pinned (textproto.CanonicalMIMEHeaderKey key) [value]) : h.Set key value = h :=
  Header.store_of_pinned h _ _ hp

theorem Header.absent_Del_self (h : Header) (key : GoString) :
    (h.Del key).absent (textproto.CanonicalMIMEHeaderKey key) :=
  Header.absent_delete_self h _

theorem Header.absent_Del (h : Header) (key c : GoString) (ha : h.absent c) :
    (h.Del key).absent c :=
  Header.absent_delete h _ c ha

theorem Header.absent_Set (h : Header) (key value c : GoString)
    (hc : c ≠ textproto.CanonicalMIMEHeaderKey key) (ha : h.absent c) :
    (h.Set key value).absent c :=
  Header.absent_store h _ c _ hc ha

theorem Header.pinned_Set_self (h : Header) (key value : GoString) :
    (h.Set key value).pinned (textproto.CanonicalMIMEHeaderKey key) [value] :=
  Header.pinned_store_self h _ _

theorem Header.pinned_Set (h : Header) (key value c : GoString) (ww : List GoString)
    (hc : c ≠ textproto.CanonicalMIMEHeaderKey key) (hp : h.pinned c ww) :
    (h.Set key value).pinned c ww :=
  Header.pinned_store h _ c _ ww hc hp

/-- A request whose headers already are as the sanitizer leaves them is not
changed by it. -/
theorem fixRequestHeaders_of_fixed (req : Request)
    (d0 : req.Header.absent (textproto.CanonicalMIMEHeaderKey "Accept-Encoding".toList))
    (d1 : req.Header.absent (textproto.CanonicalMIMEHeaderKey "If-None-Match".toList))
    (d2 : req.Header.absent (textproto.CanonicalMIMEHeaderKey "If-Modified-Since".toList))
    (d3 : req.Header.absent (textproto.CanonicalMIMEHeaderKey "Upgrade-Insecure-Requests".toList))
    (s0 : req.Header.pinned (textproto.CanonicalMIMEHeaderKey "Pragma".toList) ["no-cache".toList]) :
    fixRequestHeaders req = req := by
  unfold fixRequestHeaders
  simp only []
  rw [Header.Del_fixed _ _ d0, Header.Del_fixed _ _ d1, Header.Del_fixed _ _ d2, Header.Del_fixed _ _ d3, Header.Set_fixed _ _ _ s0]

/-- A response whose headers already are as the sanitizer leaves them is
not changed by it. -/
theorem fixResponseHeaders_of_fixed (res : Response)
    (d0 : res.Header.absent (textproto.CanonicalMIMEHeaderKey "Content-Security-Policy-Report-Only".toList))
    (d1 : res.Header.absent (textproto.CanonicalMIMEHeaderKey "Content-Security-Policy".toList))
    (d2 : res.Header.absent (textproto.CanonicalMIMEHeaderKey "Strict-Transport-Security".toList))
    (d3 : res.Header.absent (textproto.CanonicalMIMEHeaderKey "Public-Key-Pins".toList))
    (d4 : res.Header.absent (textproto.CanonicalMIMEHeaderKey "Public-Key-Pins-Report-Only".toList))
    (d5 : res.Header.absent (textproto.CanonicalMIMEHeaderKey "X-Frame-Options".toList))
    (d6 : res.Header.absent (textproto.CanonicalMIMEHeaderKey "X-Content-Type-Options".toList))
    (d7 : res.Header.absent (textproto.CanonicalMIMEHeaderKey "X-WebKit-CSP".toList))
    (d8 : res.Header.absent (textproto.CanonicalMIMEHeaderKey "X-Content-Security-Policy".toList))
    (d9 : res.Header.absent (textproto.CanonicalMIMEHeaderKey "X-Download-Options".toList))
    (d10 : res.Header.absent (textproto.CanonicalMIMEHeaderKey "X-Permitted-Cross-Domain-Policies".toList))
    (d11 : res.Header.absent (textproto.CanonicalMIMEHeaderKey "X-Xss-Protection".toList))
    (s0 : res.Header.pinned (textproto.CanonicalMIMEHeaderKey "Allow-Access-From-Same-Origin".toList) ["*".toList])
    (s1 : res.Header.pinned (textproto.CanonicalMIMEHeaderKey "Access-Control-Allow-Origin".toList) ["*".toList])
    (s2 : res.Header.pinned (textproto.CanonicalMIMEHeaderKey "Access-Control-Allow-Methods".toList) ["*".toList])
    (s3 : res.Header.pinned (textproto.CanonicalMIMEHeaderKey "Access-Control-Allow-Headers".toList) ["*".toList]) :
    fixResponseHeaders res = res := by
  unfold fixResponseHeaders
  simp only []
  rw [Header.Del_fixed _ _ d0, Header.Del_fixed _ _ d1, Header.Del_fixed _ _ d2, Header.Del_fixed _ _ d3, Header.Del_fixed _ _ d4, Header.Del_fixed _ _ d5, Header.Del_fixed _ _ d6, Header.Del_fixed _ _ d7, Header.Del_fixed _ _ d8, Header.Del_fixed _ _ d9, Header.Del_fixed _ _ d10, Header.Del_fixed _ _ d11,
    Header.Set_fixed _ _ _ s0, Header.Set_fixed _ _ _ s1, Header.Set_fixed _ _ _ s2, Header.Set_fixed _ _ _ s3]

/-! ## Lemmas on the response chain -/

theorem isScriptInjectable_non_html (p : HTTPProxy) (res : Response)
    (hct : strings.Contains (getHeader res "Content-Type".toList) "text/html".toList = false) :
    (isScriptInjectable p res).1 = false := by
  unfold isScriptInjectable
  split
  · rfl
  · simp only [hct, Bool.false_eq_true, if_false]

theorem injectStage_skip (p : HTTPProxy) (w : World) (res : Response)
    (hno : (isScriptInjectable p res).1 = false) :
    injectStage p w res = { world := w, res := some res, ret := Ref.arg } := by
  simp only [injectStage, hno, Bool.false_eq_true, if_false]

theorem doScriptInjection_error (p : HTTPProxy) (w : World) (res : Response)
    (cType err : GoString) (hfail : (ioutil.ReadAll res.Body).2 = .error err) :
    doScriptInjection p w res cType
      = { world := ((w.call Call.doScriptInjection).call Call.ReadAll).call Call.Close
          res := { res with Body := (ioutil.ReadAll res.Body).1.Close }
          err := some err
          newResp := none } := by
  simp only [doScriptInjection, hfail]

/-- What onResponseFilter does with a non-nil response once the script stage
has produced no replacement: sanitize, Process, then the injection stage. -/
theorem onResponseFilter_no_script_reply (p : HTTPProxy) (w : World) (res : Response)
    (hscript : ∀ script, p.Script = some script →
      (script.OnResponse (p.stripper.Process (fixResponseHeaders res))).2 = none) :
    ∃ cs, Call.doScriptInjection ∉ cs ∧ Call.ReadAll ∉ cs ∧ Call.Close ∉ cs ∧
      onResponseFilter p w (some res)
        = injectStage p { w with calls := w.calls ++ cs }
            (p.stripper.Process (fixResponseHeaders res)) := by
  cases hs : p.Script with
  | none =>
    refine ⟨[Call.fixResponseHeaders, Call.Process], by decide, by decide, by decide, ?_⟩
    simp only [onResponseFilter, hs, World.call, List.append_assoc, List.singleton_append]
  | some script =>
    refine ⟨[Call.fixResponseHeaders, Call.Process, Call.OnResponse],
      by decide, by decide, by decide, ?_⟩
    simp only [onResponseFilter, hs, hscript script hs, World.call, List.append_assoc,
      List.singleton_append, List.cons_append, List.nil_append]

/-! ## Lemmas on the event list -/

theorem onRequestFilter_events (p : HTTPProxy) (w : World) (req : Request) :
    ∃ es, (onRequestFilter p w req).world.Events = w.Events ++ es ∧
      es.length = if scriptRequestReply p req then 1 else 0 := by
  cases hpre : p.stripper.Preprocess (fixRequestHeaders req) with
  | some redir =>
    refine ⟨[], ?_, ?_⟩
    · simp only [onRequestFilter, hpre, World.call, List.append_nil]
    · simp only [scriptRequestReply, hpre]
      rfl
  | none =>
    cases hs : p.Script with
    | none =>
      refine ⟨[], ?_, ?_⟩
      · simp only [onRequestFilter, hpre, hs, World.call, List.append_nil]
      · simp only [scriptRequestReply, hpre, hs]
        rfl
    | some script =>
      cases h1 : (script.OnRequest (fixRequestHeaders req)).1 with
      | some jsreq =>
        refine ⟨[{ Tag := p.Name ++ ".spoofed-request".toList
                   Data := { To := strings.SplitHead req.RemoteAddr ":".toList
                             Method := jsreq.Method
                             Host := jsreq.Hostname
                             Path := jsreq.Path
                             Size := jsreq.Body.length } }], ?_, ?_⟩
        · simp only [onRequestFilter, hpre, hs, h1, logRequestAction, World.Add, World.call]
          rfl
        · simp only [scriptRequestReply, hpre, hs, h1]
          rfl
      | none =>
        cases h2 : (script.OnRequest (fixRequestHeaders req)).2 with
        | some jsres =>
          refine ⟨[{ Tag := p.Name ++ ".spoofed-response".toList
                     Data := { To := strings.SplitHead req.RemoteAddr ":".toList
                               Method := req.Method
                               Host := req.Host
                               Path := req.URL.Path
                               Size := jsres.Body.length } }], ?_, ?_⟩
          · simp only [onRequestFilter, hpre, hs, h1, h2, logResponseAction, World.Add,
              World.call]
            rfl
          · simp only [scriptRequestReply, hpre, hs, h1, h2]
            rfl
        | none =>
          refine ⟨[], ?_, ?_⟩
          · simp only [onRequestFilter, hpre, hs, h1, h2, World.call, List.append_nil]
          · simp only [scriptRequestReply, hpre, hs, h1, h2]
            rfl

theorem injectStage_events (p : HTTPProxy) (w : World) (res : Response) :
    (injectStage p w res).world.Events = w.Events := by
  unfold injectStage
  dsimp only
  split
  · split <;> simp only [doScriptInjection, World.call] <;> split <;> (try split) <;> rfl
  · rfl

theorem onResponseFilter_events (p : HTTPProxy) (w : World) (res : Option Response) :
    ∃ es, (onResponseFilter p w res).world.Events = w.Events ++ es ∧
      es.length = if scriptResponseReply p res then 1 else 0 := by
  cases res with
  | none => exact ⟨[], (List.append_nil _).symm, rfl⟩
  | some res =>
    cases hs : p.Script with
    | none =>
      refine ⟨[], ?_, ?_⟩
      · simp only [onResponseFilter, hs, injectStage_events, World.call, List.append_nil]
      · simp only [scriptResponseReply, hs]
        rfl
    | some script =>
      cases hjs : (script.OnResponse (p.stripper.Process (fixResponseHeaders res))).2 with
      | none =>
        refine ⟨[], ?_, ?_⟩
        · simp only [onResponseFilter, hs, hjs, injectStage_events, World.call,
            List.append_nil]
        · simp only [scriptResponseReply, hs, hjs]
          rfl
      | some jsres =>
        refine ⟨[{ Tag := p.Name ++ ".spoofed-response".toList
                   Data :=
                    { To := strings.SplitHead
                        (p.stripper.Process (fixResponseHeaders res)).Request.RemoteAddr
                        ":".toList
                      Method := (p.stripper.Process (fixResponseHeaders res)).Request.Method
                      Host := (p.stripper.Process (fixResponseHeaders res)).Request.Host
                      Path := (p.stripper.Process (fixResponseHeaders res)).Request.URL.Path
                      Size := jsres.Body.length } }], ?_, ?_⟩
        · simp only [onResponseFilter, hs, hjs, logResponseAction, World.Add, World.call]
        · simp only [scriptResponseReply, hs, hjs]
          rfl

/-! ## Lemmas on the headers a sanitizer leaves alone -/

theorem Header.filter_rewrite (h : Header) (f : GoString × List GoString → GoString × List GoString)
    (keep : GoString × List GoString → Bool)
    (hf : ∀ e, f e = e ∨ (keep (f e) = false ∧ keep e = false)) :
    (h.map f).filter keep = h.filter keep := by
  induction h with
  | nil => rfl
  | cons e t ih =>
    rw [List.map_cons, List.filter_cons, List.filter_cons, ih]
    rcases hf e with h1 | ⟨h1, h2⟩
    · rw [h1]
    · rw [h1, h2]
      rfl

theorem Header.except_delete (h : Header) (key : GoString) (names : List GoString)
    (hk : names.contains key = true) : (h.delete key).except names = h.except names := by
  unfold Header.except Header.delete
  rw [List.filter_filter]
  apply List.filter_congr
  intro e _
  by_cases hek : e.1 = key
  · rw [hek, hk]
    rfl
  · have hb : (e.1 != key) = true := by simpa using hek
    rw [hb, Bool.and_true]

theorem Header.except_store (h : Header) (key : GoString) (vv : List GoString)
    (names : List GoString) (hk : names.contains key = true) :
    (h.store key vv).except names = h.except names := by
  have hnew : (!names.contains (key, vv).1) = false := by
    show (!names.contains key) = false
    rw [hk]
    rfl
  unfold Header.store
  split
  · unfold Header.except
    apply Header.filter_rewrite
    intro e
    by_cases hek : e.1 = key
    · have hb : (e.1 == key) = true := by simpa using hek
      rw [if_pos hb]
      refine Or.inr ⟨hnew, ?_⟩
      rw [hek, hk]
      rfl
    · have hb : ¬ (e.1 == key) = true := by simpa using hek
      rw [if_neg hb]
      exact Or.inl rfl
  · unfold Header.except
    rw [List.filter_append, List.filter_cons, hnew]
    exact List.append_nil _

theorem Header.except_Del (h : Header) (key : GoString) (names : List GoString)
    (hk : names.contains (textproto.CanonicalMIMEHeaderKey key) = true) :
    (h.Del key).except names = h.except names :=
  Header.except_delete h _ names hk

theorem Header.except_Set (h : Header) (key value : GoString) (names : List GoString)
    (hk : names.contains (textproto.CanonicalMIMEHeaderKey key) = true) :
    (h.Set key value).except names = h.except names :=
  Header.except_store h _ _ names hk

theorem fixRequestHeaders_except (req : Request) :
    (fixRequestHeaders req).Header.except requestSanitized
      = req.Header.except requestSanitized := by
  unfold fixRequestHeaders
  dsimp only
  rw [Header.except_Set _ "Pragma".toList "no-cache".toList requestSanitized (by decide),
    Header.except_Del _ "Upgrade-Insecure-Requests".toList requestSanitized (by decide),
    Header.except_Del _ "If-Modified-Since".toList requestSanitized (by decide),
    Header.except_Del _ "If-None-Match".toList requestSanitized (by decide),
    Header.except_Del _ "Accept-Encoding".toList requestSanitized (by decide)]

theorem fixResponseHeaders_except (res : Response) :
    (fixResponseHeaders res).Header.except responseSanitized
      = res.Header.except responseSanitized := by
  unfold fixResponseHeaders
  dsimp only
  rw [Header.except_Set _ "Access-Control-Allow-Headers".toList "*".toList responseSanitized (by decide),
    Header.except_Set _ "Access-Control-Allow-Methods".toList "*".toList responseSanitized (by decide),
    Header.except_Set _ "Access-Control-Allow-Origin".toList "*".toList responseSanitized (by decide),
    Header.except_Set _ "Allow-Access-From-Same-Origin".toList "*".toList responseSanitized (by decide),
    Header.except_Del _ "X-Xss-Protection".toList responseSanitized (by decide),
    Header.except_Del _ "X-Permitted-Cross-Domain-Policies".toList responseSanitized (by decide),
    Header.except_Del _ "X-Download-Options".toList responseSanitized (by decide),
    Header.except_Del _ "X-Content-Security-Policy".toList responseSanitized (by decide),
    Header.except_Del _ "X-WebKit-CSP".toList responseSanitized (by decide),
    Header.except_Del _ "X-Content-Type-Options".toList responseSanitized (by decide),
    Header.except_Del _ "X-Frame-Options".toList responseSanitized (by decide),
    Header.except_Del _ "Public-Key-Pins-Report-Only".toList responseSanitized (by decide),
    Header.except_Del _ "Public-Key-Pins".toList responseSanitized (by decide),
    Header.except_Del _ "Strict-Transport-Security".toList responseSanitized (by decide),
    Header.except_Del _ "Content-Security-Policy".toList responseSanitized (by decide),
    Header.except_Del _ "Content-Security-Policy-Report-Only".toList responseSanitized (by decide)]

theorem fixRequestHeaders_fields (req : Request) :
    (fixRequestHeaders req).RemoteAddr = req.RemoteAddr ∧
    (fixRequestHeaders req).Method = req.Method ∧
    (fixRequestHeaders req).Host = req.Host ∧
    (fixRequestHeaders req).URL = req.URL := by
  unfold fixRequestHeaders
  dsimp only
  exact ⟨rfl, rfl, rfl, rfl⟩

theorem fixResponseHeaders_fields (res : Response) :
    (fixResponseHeaders res).StatusCode = res.StatusCode ∧
    (fixResponseHeaders res).Body = res.Body ∧
    (fixResponseHeaders res).Request = res.Request ∧
    (fixResponseHeaders res).ContentLength = res.ContentLength := by
  unfold fixResponseHeaders
  dsimp only
  exact ⟨rfl, rfl, rfl, rfl⟩

/-! ## Lemmas on the header lookup helper -/

theorem getHeaderValuesWith_eq (lower : GoString → GoString) (name header : GoString)
    (values : List GoString) :
    getHeaderValuesWith lower name header values
      = if lower name = header then values.head? else none := by
  induction values with
  | nil => simp [getHeaderValuesWith]
  | cons v vs ih =>
    by_cases hn : lower name = header
    · simp [getHeaderValuesWith, hn]
    · simp [getHeaderValuesWith, hn, ih]

theorem getHeaderLoopWith_eq (lower : GoString → GoString) (name : GoString) (h : Header) :
    getHeaderLoopWith lower (lower name) h
      = match Header.firstNamedWith lower h name with
        | some e => e.2.headD []
        | none => [] := by
  induction h with
  | nil => rfl
  | cons e t ih =>
    obtain ⟨n, vs⟩ := e
    unfold getHeaderLoopWith Header.firstNamedWith
    rw [getHeaderValuesWith_eq, List.find?_cons]
    by_cases hn : lower n = lower name
    · cases vs with
      | nil =>
        simp only [hn, if_true, List.head?_nil, decide_True, List.isEmpty_nil, Bool.not_true,
          Bool.and_false]
        exact ih
      | cons v vs1 =>
        simp only [hn, if_true, List.head?_cons, decide_True, List.isEmpty_cons, Bool.not_false,
          Bool.and_true, List.headD_cons]
    · simp only [hn, if_false, decide_False, Bool.false_and]
      exact ih

theorem getHeaderLoopWith_recase (lower : GoString → GoString) (header : GoString) (h : Header)
    (f : GoString → GoString) (hf : ∀ n, lower (f n) = lower n) :
    getHeaderLoopWith lower header (h.map (fun e => (f e.1, e.2)))
      = getHeaderLoopWith lower header h := by
  induction h with
  | nil => rfl
  | cons e t ih =>
    obtain ⟨n, vs⟩ := e
    rw [List.map_cons]
    unfold getHeaderLoopWith
    rw [getHeaderValuesWith_eq, getHeaderValuesWith_eq, hf, ih]

theorem getHeaderValues_with (name header : GoString) (values : List GoString) :
    getHeaderValues name header values
      = getHeaderValuesWith strings.ToLower name header values := by
  induction values with
  | nil => rfl
  | cons v vs ih =>
    unfold getHeaderValues getHeaderValuesWith
    rw [ih]

/-- The lookup of this file is the parametrised one at the ASCII
lower-casing function. -/
theorem getHeaderLoop_with (header : GoString) (h : Header) :
    getHeaderLoop header h = getHeaderLoopWith strings.ToLower header h := by
  induction h with
  | nil => rfl
  | cons e t ih =>
    obtain ⟨n, vs⟩ := e
    unfold getHeaderLoop getHeaderLoopWith
    rw [getHeaderValues_with, ih]

/-! ## Lemmas on letter case -/

theorem char_toNat_inj (c d : Char) (h : c.toNat = d.toNat) : c = d := by
  rw [← Char.ofNat_toNat c, ← Char.ofNat_toNat d, h]

theorem char_isUpper_iff (c : Char) : c.isUpper = true ↔ 65 ≤ c.toNat ∧ c.toNat ≤ 90 := by
  simp [Char.isUpper, Char.toNat, UInt32.le_def, BitVec.le_def, UInt32.toNat]

theorem char_isLower_iff (c : Char) : c.isLower = true ↔ 97 ≤ c.toNat ∧ c.toNat ≤ 122 := by
  simp [Char.isLower, Char.toNat, UInt32.le_def, BitVec.le_def, UInt32.toNat]

theorem char_ofNat_small (n : Nat) (h : n < 256) : (Char.ofNat n).toNat = n := by
  interval_cases n <;> rfl

theorem char_toNat_toLower (c : Char) :
    c.toLower.toNat = if 65 ≤ c.toNat ∧ c.toNat ≤ 90 then c.toNat + 32 else c.toNat := by
  unfold Char.toLower
  dsimp only
  split
  · rename_i h
    exact char_ofNat_small _ (by omega)
  · rfl

theorem char_toNat_toUpper (c : Char) :
    c.toUpper.toNat = if 97 ≤ c.toNat ∧ c.toNat ≤ 122 then c.toNat - 32 else c.toNat := by
  unfold Char.toUpper
  dsimp only
  split
  · rename_i h
    exact char_ofNat_small _ (by omega)
  · rfl

/-- Two bytes with the same lower-case form are equal or are the two cases
of one letter. -/
theorem char_lower_cases (c d : Char) (h : c.toLower = d.toLower) :
    c.toNat = d.toNat ∨
    (65 ≤ c.toNat ∧ c.toNat ≤ 90 ∧ d.toNat = c.toNat + 32) ∨
    (65 ≤ d.toNat ∧ d.toNat ≤ 90 ∧ c.toNat = d.toNat + 32) := by
  have hl := congrArg Char.toNat h
  rw [char_toNat_toLower, char_toNat_toLower] at hl
  split_ifs at hl <;> omega

theorem char_step_congr (upper : Bool) (c d : Char) (h : c.toLower = d.toLower) :
    (if (upper && c.isLower) = true then c.toUpper
      else if (!upper && c.isUpper) = true then c.toLower else c)
    = (if (upper && d.isLower) = true then d.toUpper
      else if (!upper && d.isUpper) = true then d.toLower else d) := by
  have hcases := char_lower_cases c d h
  apply char_toNat_inj
  cases upper
  · simp only [Bool.false_and, Bool.not_false, Bool.true_and, Bool.false_eq_true, if_false,
      char_isUpper_iff]
    split_ifs <;> (try simp only [char_toNat_toLower]) <;> (try split_ifs) <;> omega
  · simp only [Bool.true_and, Bool.not_true, Bool.false_and, Bool.false_eq_true, if_false,
      char_isLower_iff]
    split_ifs <;> (try simp only [char_toNat_toUpper]) <;> (try split_ifs) <;> omega

theorem textproto.valid_of_upper (c : Char) (h : 65 ≤ c.toNat ∧ c.toNat ≤ 90) :
    textproto.validHeaderFieldByte c = true := by
  simp only [textproto.validHeaderFieldByte, Char.isAlphanum, Char.isAlpha,
    (char_isUpper_iff c).mpr h, Bool.true_or]

theorem textproto.valid_of_lower (c : Char) (h : 97 ≤ c.toNat ∧ c.toNat ≤ 122) :
    textproto.validHeaderFieldByte c = true := by
  simp only [textproto.validHeaderFieldByte, Char.isAlphanum, Char.isAlpha,
    (char_isLower_iff c).mpr h, Bool.or_true, Bool.true_or]

theorem textproto.valid_congr (c d : Char) (h : c.toLower = d.toLower) :
    textproto.validHeaderFieldByte c = textproto.validHeaderFieldByte d := by
  rcases char_lower_cases c d h with h1 | ⟨h1, h2, h3⟩ | ⟨h1, h2, h3⟩
  · rw [char_toNat_inj c d h1]
  · rw [textproto.valid_of_upper c ⟨h1, h2⟩, textproto.valid_of_lower d ⟨by omega, by omega⟩]
  · rw [textproto.valid_of_upper d ⟨h1, h2⟩, textproto.valid_of_lower c ⟨by omega, by omega⟩]

theorem textproto.canonicalLoop_congr (a b : GoString)
    (h : strings.ToLower a = strings.ToLower b) (upper : Bool) :
    textproto.canonicalLoop upper a = textproto.canonicalLoop upper b := by
  induction a generalizing b upper with
  | nil =>
    cases b with
    | nil => rfl
    | cons d b1 => simp [strings.ToLower] at h
  | cons c a1 ih =>
    cases b with
    | nil => simp [strings.ToLower] at h
    | cons d b1 =>
      simp only [strings.ToLower, List.map_cons, List.cons.injEq] at h
      obtain ⟨hcd, htl⟩ := h
      simp only [textproto.canonicalLoop]
      rw [char_step_congr upper c d hcd, ih b1 htl]

theorem textproto.all_valid_congr (a b : GoString)
    (h : strings.ToLower a = strings.ToLower b) :
    a.all textproto.validHeaderFieldByte = b.all textproto.validHeaderFieldByte := by
  induction a generalizing b with
  | nil =>
    cases b with
    | nil => rfl
    | cons d b1 => simp [strings.ToLower] at h
  | cons c a1 ih =>
    cases b with
    | nil => simp [strings.ToLower] at h
    | cons d b1 =>
      simp only [strings.ToLower, List.map_cons, List.cons.injEq] at h
      obtain ⟨hcd, htl⟩ := h
      rw [List.all_cons, List.all_cons, textproto.valid_congr c d hcd, ih b1 htl]

/-- Two names that are equal ignoring letter case, and are made of token
bytes, have the same canonical form. -/
theorem textproto.canonical_congr (a b : GoString)
    (h : strings.ToLower a = strings.ToLower b)
    (hb : b.all textproto.validHeaderFieldByte = true) :
    textproto.CanonicalMIMEHeaderKey a = textproto.CanonicalMIMEHeaderKey b := by
  unfold textproto.CanonicalMIMEHeaderKey
  rw [textproto.all_valid_congr a b h, if_pos hb, if_pos hb,
    textproto.canonicalLoop_congr a b h]

/-! ## Lemmas on what the sanitizers leave behind -/

theorem Header.lookup_of_absent (h : Header) (c : GoString) (ha : h.absent c) :
    Header.lookup h c = [] := by
  induction h with
  | nil => rfl
  | cons e t ih =>
    rw [Header.lookup_cons, if_neg (ha e (List.mem_cons_self _ _))]
    exact ih (fun e1 h1 => ha e1 (List.mem_cons_of_mem _ h1))

theorem Header.lookup_of_pinned (h : Header) (c : GoString) (vv : List GoString)
    (hp : h.pinned c vv) : Header.lookup h c = vv := by
  induction h with
  | nil =>
    have := hp.1
    simp at this
  | cons e t ih =>
    rw [Header.lookup_cons]
    by_cases hec : e.1 = c
    · rw [if_pos hec, hp.2 e (List.mem_cons_self _ _) hec]
    · rw [if_neg hec]
      refine ih ⟨?_, fun e1 h1 => hp.2 e1 (List.mem_cons_of_mem _ h1)⟩
      have := hp.1
      simpa [List.any_cons, hec] using this

theorem Header.mem_of_pinned (h : Header) (c : GoString) (vv : List GoString)
    (hp : h.pinned c vv) : (c, vv) ∈ h := by
  obtain ⟨e, he, hec⟩ := List.any_eq_true.mp hp.1
  have h1 : e.1 = c := by simpa using hec
  rw [← hp.2 e he h1]
  exact he

theorem Header.canonical_Del (h : Header) (key : GoString) (hc : h.canonical) :
    (h.Del key).canonical :=
  fun e he => hc e (List.mem_filter.mp he).1

theorem Header.canonical_Set (h : Header) (key value : GoString)
    (hk : textproto.CanonicalMIMEHeaderKey (textproto.CanonicalMIMEHeaderKey key)
      = textproto.CanonicalMIMEHeaderKey key)
    (hc : h.canonical) : (h.Set key value).canonical := by
  intro e he
  rcases Header.mem_store h _ _ e he with heq | ⟨hin, _⟩
  · rw [heq]
    exact hk
  · exact hc e hin

theorem fixRequestHeaders_shape (req : Request) :
    (fixRequestHeaders req).Header.absent (textproto.CanonicalMIMEHeaderKey "Accept-Encoding".toList) ∧
    (fixRequestHeaders req).Header.absent (textproto.CanonicalMIMEHeaderKey "If-None-Match".toList) ∧
    (fixRequestHeaders req).Header.absent (textproto.CanonicalMIMEHeaderKey "If-Modified-Since".toList) ∧
    (fixRequestHeaders req).Header.absent (textproto.CanonicalMIMEHeaderKey "Upgrade-Insecure-Requests".toList) ∧
    (fixRequestHeaders req).Header.pinned (textproto.CanonicalMIMEHeaderKey "Pragma".toList) ["no-cache".toList] := by
  unfold fixRequestHeaders
  dsimp only
  refine ⟨?_, ?_, ?_, ?_, ?_⟩
  · exact Header.absent_Set _ _ _ _ (by decide) (Header.absent_Del _ _ _ (Header.absent_Del _ _ _ (Header.absent_Del _ _ _ (Header.absent_Del_self _ _))))
  · exact Header.absent_Set _ _ _ _ (by decide) (Header.absent_Del _ _ _ (Header.absent_Del _ _ _ (Header.absent_Del_self _ _)))
  · exact Header.absent_Set _ _ _ _ (by decide) (Header.absent_Del _ _ _ (Header.absent_Del_self _ _))
  · exact Header.absent_Set _ _ _ _ (by decide) (Header.absent_Del_self _ _)
  · exact Header.pinned_Set_self _ _ _

theorem fixResponseHeaders_shape (res : Response) :
    (fixResponseHeaders res).Header.absent (textproto.CanonicalMIMEHeaderKey "Content-Security-Policy-Report-Only".toList) ∧
    (fixResponseHeaders res).Header.absent (textproto.CanonicalMIMEHeaderKey "Content-Security-Policy".toList) ∧
    (fixResponseHeaders res).Header.absent (textproto.CanonicalMIMEHeaderKey "Strict-Transport-Security".toList) ∧
    (fixResponseHeaders res).Header.absent (textproto.CanonicalMIMEHeaderKey "Public-Key-Pins".toList) ∧
    (fixResponseHeaders res).Header.absent (textproto.CanonicalMIMEHeaderKey "Public-Key-Pins-Report-Only".toList) ∧
    (fixResponseHeaders res).Header.absent (textproto.CanonicalMIMEHeaderKey "X-Frame-Options".toList) ∧
    (fixResponseHeaders res).Header.absent (textproto.CanonicalMIMEHeaderKey "X-Content-Type-Options".toList) ∧
    (fixResponseHeaders res).Header.absent (textproto.CanonicalMIMEHeaderKey "X-WebKit-CSP".toList) ∧
    (fixResponseHeaders res).Header.absent (textproto.CanonicalMIMEHeaderKey "X-Content-Security-Policy".toList) ∧
    (fixResponseHeaders res).Header.absent (textproto.CanonicalMIMEHeaderKey "X-Download-Options".toList) ∧
    (fixResponseHeaders res).Header.absent (textproto.CanonicalMIMEHeaderKey "X-Permitted-Cross-Domain-Policies".toList) ∧
    (fixResponseHeaders res).Header.absent (textproto.CanonicalMIMEHeaderKey "X-Xss-Protection".toList) ∧
    (fixResponseHeaders res).Header.pinned (textproto.CanonicalMIMEHeaderKey "Allow-Access-From-Same-Origin".toList) ["*".toList] ∧
    (fixResponseHeaders res).Header.pinned (textproto.CanonicalMIMEHeaderKey "Access-Control-Allow-Origin".toList) ["*".toList] ∧
    (fixResponseHeaders res).Header.pinned (textproto.CanonicalMIMEHeaderKey "Access-Control-Allow-Methods".toList) ["*".toList] ∧
    (fixResponseHeaders res).Header.pinned (textproto.CanonicalMIMEHeaderKey "Access-Control-Allow-Headers".toList) ["*".toList] := by
  unfold fixResponseHeaders
  dsimp only
  refine ⟨?_, ?_, ?_, ?_, ?_, ?_, ?_, ?_, ?_, ?_, ?_, ?_, ?_, ?_, ?_, ?_⟩
  · exact Header.absent_Set _ _ _ _ (by decide) (Header.absent_Set _ _ _ _ (by decide) (Header.absent_Set _ _ _ _ (by decide) (Header.absent_Set _ _ _ _ (by decide) (Header.absent_Del _ _ _ (Header.absent_Del _ _ _ (Header.absent_Del _ _ _ (Header.absent_Del _ _ _ (Header.absent_Del _ _ _ (Header.absent_Del _ _ _ (Header.absent_Del _ _ _ (Header.absent_Del _ _ _ (Header.absent_Del _ _ _ (Header.absent_Del _ _ _ (Header.absent_Del _ _ _ (Header.absent_Del_self _ _)))))))))))))))
  · exact Header.absent_Set _ _ _ _ (by decide) (Header.absent_Set _ _ _ _ (by decide) (Header.absent_Set _ _ _ _ (by decide) (Header.absent_Set _ _ _ _ (by decide) (Header.absent_Del _ _ _ (Header.absent_Del _ _ _ (Header.absent_Del _ _ _ (Header.absent_Del _ _ _ (Header.absent_Del _ _ _ (Header.absent_Del _ _ _ (Header.absent_Del _ _ _ (Header.absent_Del _ _ _ (Header.absent_Del _ _ _ (Header.absent_Del _ _ _ (Header.absent_Del_self _ _))))))))))))))
  · exact Header.absent_Set _ _ _ _ (by decide) (Header.absent_Set _ _ _ _ (by decide) (Header.absent_Set _ _ _ _ (by decide) (Header.absent_Set _ _ _ _ (by decide) (Header.absent_Del _ _ _ (Header.absent_Del _ _ _ (Header.absent_Del _ _ _ (Header.absent_Del _ _ _ (Header.absent_Del _ _ _ (Header.absent_Del _ _ _ (Header.absent_Del _ _ _ (Header.absent_Del _ _ _ (Header.absent_Del _ _ _ (Header.absent_Del_self _ _)))))))))))))
  · exact Header.absent_Set _ _ _ _ (by decide) (Header.absent_Set _ _ _ _ (by decide) (Header.absent_Set _ _ _ _ (by decide) (Header.absent_Set _ _ _ _ (by decide) (Header.absent_Del _ _ _ (Header.absent_Del _ _ _ (Header.absent_Del _ _ _ (Header.absent_Del _ _ _ (Header.absent_Del _ _ _ (Header.absent_Del _ _ _ (Header.absent_Del _ _ _ (Header.absent_Del _ _ _ (Header.absent_Del_self _ _))))))))))))
  · exact Header.absent_Set _ _ _ _ (by decide) (Header.absent_Set _ _ _ _ (by decide) (Header.absent_Set _ _ _ _ (by decide) (Header.absent_Set _ _ _ _ (by decide) (Header.absent_Del _ _ _ (Header.absent_Del _ _ _ (Header.absent_Del _ _ _ (Header.absent_Del _ _ _ (Header.absent_Del _ _ _ (Header.absent_Del _ _ _ (Header.absent_Del _ _ _ (Header.absent_Del_self _ _)))))))))))
  · exact Header.absent_Set _ _ _ _ (by decide) (Header.absent_Set _ _ _ _ (by decide) (Header.absent_Set _ _ _ _ (by decide) (Header.absent_Set _ _ _ _ (by decide) (Header.absent_Del _ _ _ (Header.absent_Del _ _ _ (Header.absent_Del _ _ _ (Header.absent_Del _ _ _ (Header.absent_Del _ _ _ (Header.absent_Del _ _ _ (Header.absent_Del_self _ _))))))))))
  · exact Header.absent_Set _ _ _ _ (by decide) (Header.absent_Set _ _ _ _ (by decide) (Header.absent_Set _ _ _ _ (by decide) (Header.absent_Set _ _ _ _ (by decide) (Header.absent_Del _ _ _ (Header.absent_Del _ _ _ (Header.absent_Del _ _ _ (Header.absent_Del _ _ _ (Header.absent_Del _ _ _ (Header.absent_Del_self _ _)))))))))
  · exact Header.absent_Set _ _ _ _ (by decide) (Header.absent_Set _ _ _ _ (by decide) (Header.absent_Set _ _ _ _ (by decide) (Header.absent_Set _ _ _ _ (by decide) (Header.absent_Del _ _ _ (Header.absent_Del _ _ _ (Header.absent_Del _ _ _ (Header.absent_Del _ _ _ (Header.absent_Del_self _ _))))))))
  · exact Header.absent_Set _ _ _ _ (by decide) (Header.absent_Set _ _ _ _ (by decide) (Header.absent_Set _ _ _ _ (by decide) (Header.absent_Set _ _ _ _ (by decide) (Header.absent_Del _ _ _ (Header.absent_Del _ _ _ (Header.absent_Del _ _ _ (Header.absent_Del_self _ _)))))))
  · exact Header.absent_Set _ _ _ _ (by decide) (Header.absent_Set _ _ _ _ (by decide) (Header.absent_Set _ _ _ _ (by decide) (Header.absent_Set _ _ _ _ (by decide) (Header.absent_Del _ _ _ (Header.absent_Del _ _ _ (Header.absent_Del_self _ _))))))
  · exact Header.absent_Set _ _ _ _ (by decide) (Header.absent_Set _ _ _ _ (by decide) (Header.absent_Set _ _ _ _ (by decide) (Header.absent_Set _ _ _ _ (by decide) (Header.absent_Del _ _ _ (Header.absent_Del_self _ _)))))
  · exact Header.absent_Set _ _ _ _ (by decide) (Header.absent_Set _ _ _ _ (by decide) (Header.absent_Set _ _ _ _ (by decide) (Header.absent_Set _ _ _ _ (by decide) (Header.absent_Del_self _ _))))
  · exact Header.pinned_Set _ _ _ _ _ (by decide) (Header.pinned_Set _ _ _ _ _ (by decide) (Header.pinned_Set _ _ _ _ _ (by decide) (Header.pinned_Set_self _ _ _)))
  · exact Header.pinned_Set _ _ _ _ _ (by decide) (Header.pinned_Set _ _ _ _ _ (by decide) (Header.pinned_Set_self _ _ _))
  · exact Header.pinned_Set _ _ _ _ _ (by decide) (Header.pinned_Set_self _ _ _)
  · exact Header.pinned_Set_self _ _ _

theorem fixRequestHeaders_canonical (req : Request) (hc : req.Header.canonical) :
    (fixRequestHeaders req).Header.canonical := by
  unfold fixRequestHeaders
  dsimp only
  exact Header.canonical_Set _ _ _ (by decide)
    (Header.canonical_Del _ _ (Header.canonical_Del _ _ (Header.canonical_Del _ _
      (Header.canonical_Del _ _ hc))))

/-! ## Lemmas on `strings.Contains` and `strings.Replace` -/

theorem strings.starts_iff (old s : GoString) :
    old.isPrefixOf s = true ↔ ∃ rest, s = old ++ rest := by
  induction old generalizing s with
  | nil => simp [List.isPrefixOf]
  | cons a o ih =>
    cases s with
    | nil => simp [List.isPrefixOf]
    | cons b t =>
      simp only [List.isPrefixOf, Bool.and_eq_true, beq_iff_eq, ih, List.cons_append,
        List.cons.injEq]
      constructor
      · rintro ⟨hab, rest, ht⟩
        exact ⟨rest, hab.symm, ht⟩
      · rintro ⟨rest, hab, ht⟩
        exact ⟨hab.symm, rest, ht⟩

theorem strings.Contains_cons (c : Char) (t sub : GoString) :
    strings.Contains (c :: t) sub = (sub.isPrefixOf (c :: t) || strings.Contains t sub) := rfl

theorem strings.Contains_of_starts (s sub : GoString) (h : sub.isPrefixOf s = true) :
    strings.Contains s sub = true := by
  cases s with
  | nil => exact h
  | cons c t => rw [strings.Contains_cons, h, Bool.true_or]

theorem strings.Contains_append_left (pre s sub : GoString)
    (h : strings.Contains s sub = true) : strings.Contains (pre ++ s) sub = true := by
  induction pre with
  | nil => exact h
  | cons c p ih => rw [List.cons_append, strings.Contains_cons, ih, Bool.or_true]

theorem strings.Contains_append_right (s post sub : GoString)
    (h : strings.Contains s sub = true) : strings.Contains (s ++ post) sub = true := by
  induction s with
  | nil =>
    have h1 : sub.isPrefixOf [] = true := h
    obtain ⟨rest, hrest⟩ := (strings.starts_iff sub []).mp h1
    have hsub : sub = [] := (List.append_eq_nil.mp hrest.symm).1
    apply strings.Contains_of_starts
    rw [hsub]
    exact (strings.starts_iff [] _).mpr ⟨_, rfl⟩
  | cons c t ih =>
    rw [strings.Contains_cons, Bool.or_eq_true] at h
    rcases h with h | h
    · apply strings.Contains_of_starts
      obtain ⟨rest, hrest⟩ := (strings.starts_iff sub (c :: t)).mp h
      exact (strings.starts_iff sub _).mpr ⟨rest ++ post, by rw [hrest, List.append_assoc]⟩
    · rw [List.cons_append, strings.Contains_cons, ih h, Bool.or_true]

/-- A text with `sub` in the middle contains `sub`. -/
theorem strings.Contains_middle (pre sub post : GoString) :
    strings.Contains (pre ++ sub ++ post) sub = true := by
  rw [List.append_assoc]
  apply strings.Contains_append_left
  apply strings.Contains_of_starts
  exact (strings.starts_iff sub _).mpr ⟨post, rfl⟩

theorem strings.replaceLoop_skip (old new : GoString) (pre rest : GoString) :
    strings.replaceLoop old new pre.length (pre ++ rest) = strings.replaceLoop old new 0 rest := by
  induction pre with
  | nil => rfl
  | cons c p ih =>
    rw [List.length_cons, List.cons_append]
    show strings.replaceLoop old new p.length (p ++ rest) = _
    exact ih

theorem strings.replaceLoop_match (old new rest : GoString) (hold : old ≠ []) :
    strings.replaceLoop old new 0 (old ++ rest)
      = new ++ strings.replaceLoop old new 0 rest := by
  cases old with
  | nil => exact absurd rfl hold
  | cons a o =>
    have hp : (a :: o).isPrefixOf (a :: (o ++ rest)) = true :=
      (strings.starts_iff _ _).mpr ⟨rest, rfl⟩
    rw [List.cons_append]
    show (if (a :: o).isPrefixOf (a :: (o ++ rest)) = true then
        new ++ strings.replaceLoop (a :: o) new ((a :: o).length - 1) (o ++ rest)
      else a :: strings.replaceLoop (a :: o) new 0 (o ++ rest)) = _
    rw [if_pos hp]
    have hlen : (a :: o).length - 1 = o.length := by simp
    rw [hlen, strings.replaceLoop_skip]

theorem strings.replaceLoop_step (old new : GoString) (c : Char) (t : GoString)
    (hno : ¬ old.isPrefixOf (c :: t) = true) :
    strings.replaceLoop old new 0 (c :: t) = c :: strings.replaceLoop old new 0 t := by
  show (if old.isPrefixOf (c :: t) = true then
      new ++ strings.replaceLoop old new (old.length - 1) t
    else c :: strings.replaceLoop old new 0 t) = _
  rw [if_neg hno]

/-- A text that contains `old` splits at the first occurrence: the scan
copies what is before it, puts `new` in its place and goes on after it. -/
theorem strings.replaceLoop_split (old s : GoString) (hold : old ≠ [])
    (h : strings.Contains s old = true) :
    ∃ pre rest, s = pre ++ old ++ rest ∧
      ∀ new, strings.replaceLoop old new 0 s
        = pre ++ new ++ strings.replaceLoop old new 0 rest := by
  induction s with
  | nil =>
    have h1 : old.isPrefixOf [] = true := h
    obtain ⟨rest, hrest⟩ := (strings.starts_iff old []).mp h1
    exact absurd (List.append_eq_nil.mp hrest.symm).1 hold
  | cons c t ih =>
    by_cases hp : old.isPrefixOf (c :: t) = true
    · obtain ⟨rest, hrest⟩ := (strings.starts_iff old (c :: t)).mp hp
      refine ⟨[], rest, by rw [hrest]; rfl, fun new => ?_⟩
      rw [hrest, strings.replaceLoop_match old new rest hold]
      rfl
    · rw [strings.Contains_cons, Bool.or_eq_true] at h
      rcases h with h | h
      · exact absurd h hp
      · obtain ⟨pre, rest, hs, hr⟩ := ih h
        refine ⟨c :: pre, rest, by rw [hs]; rfl, fun new => ?_⟩
        rw [strings.replaceLoop_step old new c t hp, hr new]
        rfl

/-- Replacing by a text that is not shorter than `old` does not shorten. -/
theorem strings.replaceLoop_length (old new : GoString) (hold : old ≠ [])
    (hlen : old.length ≤ new.length) (n : Nat) :
    ∀ s : GoString, s.length ≤ n → s.length ≤ (strings.replaceLoop old new 0 s).length := by
  induction n with
  | zero =>
    intro s hs
    have : s = [] := List.length_eq_zero.mp (Nat.le_zero.mp hs)
    rw [this]
    exact Nat.zero_le _
  | succ n ih =>
    intro s hs
    cases s with
    | nil => exact Nat.zero_le _
    | cons c t =>
      by_cases hp : old.isPrefixOf (c :: t) = true
      · obtain ⟨rest, hrest⟩ := (strings.starts_iff old (c :: t)).mp hp
        have hpos : 0 < old.length := List.length_pos.mpr hold
        have hl : (c :: t).length = old.length + rest.length := by
          rw [hrest, List.length_append]
        have hr := ih rest (by omega)
        rw [hrest, strings.replaceLoop_match old new rest hold, List.length_append,
          List.length_append]
        omega
      · have ht := ih t (by simpa using hs)
        rw [strings.replaceLoop_step old new c t hp, List.length_cons, List.length_cons]
        omega

theorem strings.Replace_marker (s new : GoString) :
    strings.Replace s "</head>".toList new = strings.replaceLoop "</head>".toList new 0 s := by
  unfold strings.Replace
  rw [if_neg (by decide)]

/-- Replacing `old` by `payload ++ old` in a text that contains `old` keeps
`old` in the text; doing it once more puts `payload ++ old` in again and
makes the text longer by the payload at least. -/
theorem strings.replaceLoop_again (old payload s : GoString) (hold : old ≠ [])
    (h : strings.Contains s old = true) :
    strings.Contains (strings.replaceLoop old (payload ++ old) 0 s) old = true ∧
    strings.Contains
      (strings.replaceLoop old (payload ++ old) 0
        (strings.replaceLoop old (payload ++ old) 0 s)) (payload ++ old) = true ∧
    (strings.replaceLoop old (payload ++ old) 0 s).length + payload.length
      ≤ (strings.replaceLoop old (payload ++ old) 0
          (strings.replaceLoop old (payload ++ old) 0 s)).length := by
  obtain ⟨pre, rest, _, hr⟩ := strings.replaceLoop_split old s hold h
  have h1 : strings.Contains (strings.replaceLoop old (payload ++ old) 0 s) old = true := by
    rw [hr (payload ++ old)]
    have : pre ++ (payload ++ old) ++ strings.replaceLoop old (payload ++ old) 0 rest
        = (pre ++ payload) ++ old ++ strings.replaceLoop old (payload ++ old) 0 rest := by
      simp only [List.append_assoc]
    rw [this]
    exact strings.Contains_middle _ _ _
  obtain ⟨pre1, rest1, hs1, hr1⟩ :=
    strings.replaceLoop_split old (strings.replaceLoop old (payload ++ old) 0 s) hold h1
  refine ⟨h1, ?_, ?_⟩
  · rw [hr1 (payload ++ old)]
    exact strings.Contains_middle _ _ _
  · have hlen := strings.replaceLoop_length old (payload ++ old) hold
      (by rw [List.length_append]; omega) rest1.length rest1 (Nat.le_refl _)
    rw [hr1 (payload ++ old)]
    have hb : (strings.replaceLoop old (payload ++ old) 0 s).length
        = pre1.length + old.length + rest1.length := by
      rw [hs1, List.length_append, List.length_append]
    rw [hb]
    simp only [List.length_append]
    omega

theorem fixResponseHeaders_canonical (res : Response) (hc : res.Header.canonical) :
    (fixResponseHeaders res).Header.canonical := by
  unfold fixResponseHeaders
  dsimp only
  exact Header.canonical_Set _ _ _ (by decide) (Header.canonical_Set _ _ _ (by decide) (Header.canonical_Set _ _ _ (by decide) (Header.canonical_Set _ _ _ (by decide) (Header.canonical_Del _ _ (Header.canonical_Del _ _ (Header.canonical_Del _ _ (Header.canonical_Del _ _ (Header.canonical_Del _ _ (Header.canonical_Del _ _ (Header.canonical_Del _ _ (Header.canonical_Del _ _ (Header.canonical_Del _ _ (Header.canonical_Del _ _ (Header.canonical_Del _ _ (Header.canonical_Del _ _ (hc))))))))))))))))

/-- In a map with canonical names, a name that is absent in canonical form
is absent in every casing. -/
theorem Header.absent_any_case (h : Header) (hc : h.canonical) (name : GoString)
    (hv : name.all textproto.validHeaderFieldByte = true)
    (ha : h.absent (textproto.CanonicalMIMEHeaderKey name)) :
    ∀ e ∈ h, strings.ToLower e.1 ≠ strings.ToLower name := by
  intro e he hlow
  have h1 := textproto.canonical_congr e.1 name hlow hv
  rw [hc e he] at h1
  exact ha e he h1

/-- In a map with canonical names, a name that is pinned in canonical form
is pinned in every casing. -/
theorem Header.pinned_any_case (h : Header) (hc : h.canonical) (name : GoString)
    (vv : List GoString) (hv : name.all textproto.validHeaderFieldByte = true)
    (hp : h.pinned (textproto.CanonicalMIMEHeaderKey name) vv) :
    ∀ e ∈ h, strings.ToLower e.1 = strings.ToLower name →
      e = (textproto.CanonicalMIMEHeaderKey name, vv) := by
  intro e he hlow
  have h1 := textproto.canonical_congr e.1 name hlow hv
  rw [hc e he] at h1
  exact hp.2 e he h1

/-! ## Lemmas on the client address -/

/-- When the host part has no colon, the text before the first colon of
`host:port` is the host. -/
theorem strings.SplitHead_host (host port : GoString) (hh : ':' ∉ host) :
    strings.SplitHead (host ++ ":".toList ++ port) ":".toList = host := by
  induction host with
  | nil =>
    show (if ":".toList.isPrefixOf (':' :: port) = true then []
      else ':' :: strings.SplitHead port ":".toList) = []
    have hp : ":".toList.isPrefixOf (':' :: port) = true :=
      (strings.starts_iff ":".toList (':' :: port)).mpr ⟨port, rfl⟩
    rw [if_pos hp]
  | cons c t ih =>
    have hc : c ≠ ':' := fun h => hh (h ▸ List.mem_cons_self _ _)
    have ht : ':' ∉ t := fun h => hh (List.mem_cons_of_mem _ h)
    have hp : ¬ (":".toList.isPrefixOf (c :: (t ++ ":".toList ++ port)) = true) := by
      intro hpre
      obtain ⟨rest, hrest⟩ := (strings.starts_iff _ _).mp hpre
      exact hc (List.cons.inj hrest).1
    show (if ":".toList.isPrefixOf (c :: (t ++ ":".toList ++ port)) = true then []
      else c :: strings.SplitHead (t ++ ":".toList ++ port) ":".toList) = c :: t
    rw [if_neg hp, ih ht]

/-- When the port has no colon, `host:port` without its port is the host. -/
theorem withoutPort_host (host port : GoString) (hp : ':' ∉ port) :
    withoutPort (host ++ ":".toList ++ port) = host := by
  induction host with
  | nil =>
    show (if ':' = ':' ∧ ':' ∉ port then [] else ':' :: withoutPort port) = []
    rw [if_pos ⟨rfl, hp⟩]
  | cons c t ih =>
    have hin : ':' ∈ t ++ ":".toList ++ port := by
      rw [List.append_assoc]
      exact List.mem_append_right _ (List.mem_cons_self _ _)
    show (if c = ':' ∧ ':' ∉ t ++ ":".toList ++ port then []
      else c :: withoutPort (t ++ ":".toList ++ port)) = c :: t
    rw [if_neg (fun h => h.2 hin), ih]

/-! ## Properties -/

/-- C1 (as the code has it): when the body of the response reads as `html`
and `html` contains `</head>`, doScriptInjection returns no error and a
rebuilt response whose body is `html` with every occurrence of `</head>`
replaced by the hook string `p.jsHook` itself.  The marker is kept after the
payload when the hook string is the payload followed by `</head>`; for the
body `<html><head></head><body></body></html>` and the hook string
`<script>1</script></head>` the injected body is
`<html><head><script>1</script></head><body></body></html>`. -/
theorem doScriptInjection_replaces_marker_by_hook (p : HTTPProxy) (w : World) (res : Response)
    (cType html : GoString)
    (hread : (ioutil.ReadAll res.Body).2 = .ok html)
    (hmark : strings.Contains html "</head>".toList = true) :
    (doScriptInjection p w res cType).err = none ∧
    ∃ newResp, (doScriptInjection p w res cType).newResp = some newResp ∧
      newResp.Body = ioutil.NopCloser (strings.Replace html "</head>".toList p.jsHook) ∧
      (∀ payload, p.jsHook = payload ++ "</head>".toList →
        newResp.Body.pending
          = strings.Replace html "</head>".toList (payload ++ "</head>".toList)) ∧
      (html = sampleHTML → p.jsHook = "<script>1</script></head>".toList →
        newResp.Body.pending
          = "<html><head><script>1</script></head><body></body></html>".toList) := by
  obtain ⟨herr, hnew⟩ := doScriptInjection_ok p w res cType html hread hmark
  refine ⟨herr, _, hnew, rfl, ?_, ?_⟩
  · intro payload hp
    simp only [goproxy.NewResponse, ioutil.NopCloser, hp]
  · intro hh hp
    simp only [goproxy.NewResponse, ioutil.NopCloser, hp, hh]
    decide

/-- C1, witness: the specification's page under the hook string
`<script>1</script></head>`. -/
theorem doScriptInjection_replaces_marker_by_hook_witness :
    (ioutil.ReadAll (htmlResponse sampleHTML).Body).2 = .ok sampleHTML ∧
    strings.Contains sampleHTML "</head>".toList = true ∧
    ∃ newResp, (doScriptInjection (hookProxy "<script>1</script></head>".toList) World.empty
        (htmlResponse sampleHTML) "text/html; charset=utf-8".toList).newResp = some newResp ∧
      newResp.Body.pending
        = "<html><head><script>1</script></head><body></body></html>".toList := by
  refine ⟨rfl, by decide, ?_⟩
  obtain ⟨_, r, hr, _, _, hex⟩ := doScriptInjection_replaces_marker_by_hook
    (hookProxy "<script>1</script></head>".toList) World.empty (htmlResponse sampleHTML)
    "text/html; charset=utf-8".toList sampleHTML rfl (by decide)
  exact ⟨r, hr, hex rfl rfl⟩

/-- C1, counterexample to the claim as stated: with the non-empty hook
payload `<script>1</script>` the body returned for
`<html><head></head><body></body></html>` is
`<html><head><script>1</script><body></body></html>`; the marker is gone, so
the body is not the page with `</head>` replaced by payload then `</head>`. -/
theorem doScriptInjection_drops_marker :
    strings.Contains sampleHTML "</head>".toList = true ∧
    "<script>1</script>".toList ≠ [] ∧
    ((doScriptInjection (hookProxy "<script>1</script>".toList) World.empty
        (htmlResponse sampleHTML) "text/html; charset=utf-8".toList).newResp.map
          (fun r => r.Body.pending))
      = some "<html><head><script>1</script><body></body></html>".toList ∧
    ((doScriptInjection (hookProxy "<script>1</script>".toList) World.empty
        (htmlResponse sampleHTML) "text/html; charset=utf-8".toList).newResp.map
          (fun r => r.Body.pending))
      ≠ some (strings.Replace sampleHTML "</head>".toList
          ("<script>1</script>".toList ++ "</head>".toList)) := by
  decide

/-- C2, the code at a page without the marker: for the `text/html` response
carrying `plainPage`, a non-empty hook string and no script, onResponseFilter
returns the response it was given and emits no event, but that response's
body has been read to its end and closed: nothing of the page is left to be
read, and the body is not the one the response came with. -/
theorem onResponseFilter_missing_marker_drains_body :
    strings.Contains plainPage "</head>".toList = false ∧
    (onResponseFilter (hookProxy "<script>1</script></head>".toList) World.empty
        (some (htmlResponse plainPage))).ret = Ref.arg ∧
    (onResponseFilter (hookProxy "<script>1</script></head>".toList) World.empty
        (some (htmlResponse plainPage))).world.Events = [] ∧
    (htmlResponse plainPage).Body = { pending := plainPage, failure := none, closed := false } ∧
    ((onResponseFilter (hookProxy "<script>1</script></head>".toList) World.empty
        (some (htmlResponse plainPage))).res.map (fun r => r.Body))
      = some { pending := [], failure := none, closed := true } := by
  decide

/-- C3: if the stripper's Preprocess answers the sanitized request with a
response `redir`, then, whatever `p.Script` is, onRequestFilter returns the
request it was given together with that very response, the only calls made
are the sanitizer and Preprocess (the script's OnRequest is not called), and
the event list is unchanged. -/
theorem onRequestFilter_stripper_short_circuit (p : HTTPProxy) (w : World) (req : Request)
    (redir : Response)
    (hredir : p.stripper.Preprocess (fixRequestHeaders req) = some redir) :
    (onRequestFilter p w req).retReq = Ref.arg ∧
    (onRequestFilter p w req).retRes = some redir ∧
    (onRequestFilter p w req).req = fixRequestHeaders req ∧
    (onRequestFilter p w req).world.calls
      = w.calls ++ [Call.fixRequestHeaders, Call.Preprocess] ∧
    Call.OnRequest ∉ [Call.fixRequestHeaders, Call.Preprocess] ∧
    (onRequestFilter p w req).world.Events = w.Events := by
  simp [onRequestFilter, hredir, World.call]

/-- C3, witness: a redirecting stripper in front of a script that would
rewrite every request. -/
theorem onRequestFilter_stripper_short_circuit_witness :
    redirectStripper.Preprocess (fixRequestHeaders sampleRequest) = some redirectResponse ∧
    (onRequestFilter { hookProxy [] with stripper := redirectStripper, Script := some rewriteScript }
        World.empty sampleRequest).retRes = some redirectResponse ∧
    (onRequestFilter { hookProxy [] with stripper := redirectStripper, Script := some rewriteScript }
        World.empty sampleRequest).world.Events = [] :=
  ⟨rfl,
   (onRequestFilter_stripper_short_circuit
      { hookProxy [] with stripper := redirectStripper, Script := some rewriteScript }
      World.empty sampleRequest redirectResponse rfl).2.1,
   (onRequestFilter_stripper_short_circuit
      { hookProxy [] with stripper := redirectStripper, Script := some rewriteScript }
      World.empty sampleRequest redirectResponse rfl).2.2.2.2.2⟩

/-- C4 (as the code has it): when the stripper does not redirect and the
script's OnRequest yields a rewritten request `jsreq`, onRequestFilter appends
exactly the event `<p.Name>.spoofed-request` whose record has the text of the
request's client address before its first colon, the method, host and path
of `jsreq` and the length of its body, and returns `jsreq.ToRequest()` with
no response.  That text is the client address without its port whenever the
address is `host:port` with no colon in the host (an IPv4 address or a host
name).  For `POST`, `evil.test`, `/x`, a 5-byte body and the client
`1.2.3.4:9999` the record is `{1.2.3.4, POST, evil.test, /x, 5}`. -/
theorem onRequestFilter_spoofed_request (p : HTTPProxy) (w : World) (req : Request)
    (script : ProxyScript) (jsreq : JSRequest)
    (hredir : p.stripper.Preprocess (fixRequestHeaders req) = none)
    (hscript : p.Script = some script)
    (hjs : (script.OnRequest (fixRequestHeaders req)).1 = some jsreq) :
    (onRequestFilter p w req).world.Events = w.Events ++
      [{ Tag := p.Name ++ ".spoofed-request".toList
         Data := { To := strings.SplitHead req.RemoteAddr ":".toList
                   Method := jsreq.Method
                   Host := jsreq.Hostname
                   Path := jsreq.Path
                   Size := jsreq.Body.length } }] ∧
    (onRequestFilter p w req).retReq = Ref.other jsreq.ToRequest ∧
    (onRequestFilter p w req).retRes = none ∧
    (req.RemoteAddr = "1.2.3.4:9999".toList → jsreq.Method = "POST".toList →
      jsreq.Hostname = "evil.test".toList → jsreq.Path = "/x".toList →
      jsreq.Body.length = 5 →
      (onRequestFilter p w req).world.Events = w.Events ++
        [{ Tag := p.Name ++ ".spoofed-request".toList
           Data := { To := "1.2.3.4".toList, Method := "POST".toList,
                     Host := "evil.test".toList, Path := "/x".toList, Size := 5 } }]) ∧
    (∀ host port : GoString, ':' ∉ host → ':' ∉ port →
      req.RemoteAddr = host ++ ":".toList ++ port →
      strings.SplitHead req.RemoteAddr ":".toList = host ∧
      withoutPort req.RemoteAddr = host) := by
  have hev : (onRequestFilter p w req).world.Events = w.Events ++
      [{ Tag := p.Name ++ ".spoofed-request".toList
         Data := { To := strings.SplitHead req.RemoteAddr ":".toList
                   Method := jsreq.Method
                   Host := jsreq.Hostname
                   Path := jsreq.Path
                   Size := jsreq.Body.length } }] := by
    simp only [onRequestFilter, hredir, hscript, hjs, logRequestAction, World.Add, World.call]
    rfl
  refine ⟨hev, ?_, ?_, ?_, ?_⟩
  · simp only [onRequestFilter, hredir, hscript, hjs]
  · simp only [onRequestFilter, hredir, hscript, hjs]
  · intro ha hm hh hp hb
    have hto : strings.SplitHead "1.2.3.4:9999".toList ":".toList = "1.2.3.4".toList := by
      decide
    rw [hev, ha, hm, hh, hp, hb, hto]
  · intro host port hh hp haddr
    rw [haddr]
    exact ⟨strings.SplitHead_host host port hh, withoutPort_host host port hp⟩

/-- C4, witness: the specification's example, a script rewriting the sample
request (client `1.2.3.4:9999`) to `POST evil.test/x` with body `hello`. -/
theorem onRequestFilter_spoofed_request_witness :
    idleStripper.Preprocess (fixRequestHeaders sampleRequest) = none ∧
    (rewriteScript.OnRequest (fixRequestHeaders sampleRequest)).1 = some spoofedRequest ∧
    (onRequestFilter { hookProxy [] with Script := some rewriteScript } World.empty
        sampleRequest).world.Events
      = [{ Tag := "http.proxy.spoofed-request".toList
           Data := { To := "1.2.3.4".toList, Method := "POST".toList,
                     Host := "evil.test".toList, Path := "/x".toList, Size := 5 } }] ∧
    withoutPort sampleRequest.RemoteAddr = "1.2.3.4".toList :=
  ⟨rfl, rfl,
   (onRequestFilter_spoofed_request { hookProxy [] with Script := some rewriteScript }
      World.empty sampleRequest rewriteScript spoofedRequest rfl rfl rfl).1.trans (by decide),
   ((onRequestFilter_spoofed_request { hookProxy [] with Script := some rewriteScript }
      World.empty sampleRequest rewriteScript spoofedRequest rfl rfl rfl).2.2.2.2
        "1.2.3.4".toList "9999".toList (by decide) (by decide) rfl).2⟩

/-- C4, counterexample to the claim as stated: for the IPv6 client
`[::1]:8080`, whose address without its port is `[::1]`, the record of the
`spoofed-request` event has `to` equal to `[`, the text before the first
colon. -/
theorem onRequestFilter_spoofed_request_ipv6 :
    idleStripper.Preprocess (fixRequestHeaders ipv6Request) = none ∧
    (rewriteScript.OnRequest (fixRequestHeaders ipv6Request)).1 = some spoofedRequest ∧
    withoutPort ipv6Request.RemoteAddr = "[::1]".toList ∧
    (onRequestFilter { hookProxy [] with Script := some rewriteScript } World.empty
        ipv6Request).world.Events
      = [{ Tag := "http.proxy.spoofed-request".toList
           Data := { To := "[".toList, Method := "POST".toList,
                     Host := "evil.test".toList, Path := "/x".toList, Size := 5 } }] ∧
    "[".toList ≠ withoutPort ipv6Request.RemoteAddr := by
  refine ⟨rfl, rfl, by decide, by decide, by decide⟩

/-- C5 (as the code has it): for every successful injection the rebuilt
response's `ContentLength` field is the byte length of the rewritten body,
and its `Content-Length` header values are exactly the values the original
response stores under that name, copied as they are: the header is neither
recomputed nor removed. -/
theorem doScriptInjection_content_length (p : HTTPProxy) (w : World) (res : Response)
    (cType : GoString) (newResp : Response)
    (hinj : (doScriptInjection p w res cType).newResp = some newResp) :
    newResp.ContentLength = newResp.Body.pending.length ∧
    newResp.Header.Values "Content-Length".toList
      = Header.gather "Content-Length".toList res.Header := by
  constructor
  · obtain ⟨html, _, _, hnew⟩ := doScriptInjection_some p w res cType newResp hinj
    rw [hnew]
    rfl
  · rw [doScriptInjection_Values p w res cType newResp hinj]
    have hne : textproto.CanonicalMIMEHeaderKey "Content-Type".toList
        ≠ textproto.CanonicalMIMEHeaderKey "Content-Length".toList := by decide
    rw [Header.lookup_Add, if_neg (Ne.symm hne)]
    rfl

/-- C5, witness: the specification's page, sent with `Content-Length: 39`,
is rebuilt with 57 bytes and `ContentLength` 57, its header still `39`. -/
theorem doScriptInjection_content_length_witness :
    ∃ newResp, (doScriptInjection (hookProxy "<script>1</script></head>".toList) World.empty
        (htmlResponse sampleHTML) "text/html".toList).newResp = some newResp ∧
      newResp.ContentLength = newResp.Body.pending.length ∧
      newResp.Header.Values "Content-Length".toList
        = Header.gather "Content-Length".toList (htmlResponse sampleHTML).Header :=
  ⟨_, rfl, doScriptInjection_content_length (hookProxy "<script>1</script></head>".toList)
    World.empty (htmlResponse sampleHTML) "text/html".toList _ rfl⟩

/-- C5, counterexample to the claim as stated: the specification's page
arrives with `Content-Length: 39`; after the injection of
`<script>1</script></head>` the body has 57 bytes, yet the rebuilt response
still carries the header value `39`, which is not the decimal form of 57. -/
theorem doScriptInjection_keeps_stale_content_length :
    (htmlResponse sampleHTML).Header.Values "Content-Length".toList = ["39".toList] ∧
    ((doScriptInjection (hookProxy "<script>1</script></head>".toList) World.empty
        (htmlResponse sampleHTML) "text/html".toList).newResp.map
          (fun r => (r.Header.Values "Content-Length".toList, r.Body.pending.length)))
      = some (["39".toList], 57) ∧
    "39".toList ≠ Itoa 57 := by
  decide

/-- C6 (as the code has it): for every successful injection and every
header `k` of the original response with values `vv`, the values `vv` occur,
in their original order, in the rebuilt response's value list for `k` (read,
as `Header.Values` does, under the canonical spelling that `Header.Add`
stored them with); and a header that has at least one value is present in
the rebuilt response under that canonical spelling.  A header without a value
is not copied. -/
theorem doScriptInjection_copies_headers (p : HTTPProxy) (w : World) (res : Response)
    (cType : GoString) (newResp : Response)
    (hinj : (doScriptInjection p w res cType).newResp = some newResp)
    (k : GoString) (vv : List GoString) (hmem : (k, vv) ∈ res.Header) :
    vv.Sublist (newResp.Header.Values k) ∧
    (vv ≠ [] → textproto.CanonicalMIMEHeaderKey k ∈ newResp.Header.map Prod.fst) := by
  have hsub : vv.Sublist (newResp.Header.Values k) := by
    rw [doScriptInjection_Values p w res cType newResp hinj]
    exact (Header.sublist_gather res.Header k vv hmem).trans (List.sublist_append_right _ _)
  refine ⟨hsub, fun hne => Header.key_of_lookup _ _ ?_⟩
  intro hnil
  unfold Header.Values at hsub
  rw [hnil] at hsub
  exact hne (List.sublist_nil.mp hsub)

/-- C6, witness: the two cookies of the sample response, in order, in the
rebuilt response. -/
theorem doScriptInjection_copies_headers_witness :
    ∃ newResp, (doScriptInjection (hookProxy "<script>1</script></head>".toList) World.empty
        (htmlResponse sampleHTML) "text/html".toList).newResp = some newResp ∧
      ("Set-Cookie".toList, ["a=1".toList, "b=2".toList]) ∈ (htmlResponse sampleHTML).Header ∧
      ["a=1".toList, "b=2".toList].Sublist (newResp.Header.Values "Set-Cookie".toList) ∧
      "Set-Cookie".toList ∈ newResp.Header.map Prod.fst :=
  ⟨_, rfl, by decide,
    (doScriptInjection_copies_headers (hookProxy "<script>1</script></head>".toList) World.empty
      (htmlResponse sampleHTML) "text/html".toList _ rfl "Set-Cookie".toList
      ["a=1".toList, "b=2".toList] (by decide)).1,
    (doScriptInjection_copies_headers (hookProxy "<script>1</script></head>".toList) World.empty
      (htmlResponse sampleHTML) "text/html".toList _ rfl "Set-Cookie".toList
      ["a=1".toList, "b=2".toList] (by decide)).2 (by decide)⟩

/-- C6, counterexample to the claim as stated: the original response has
the header keys `X-Empty` (no value) and `x-custom`; the keys of the rebuilt
response are `Content-Type` and `X-Custom`, so neither of the two is a key of
it: the first is dropped, the second is stored under its canonical
spelling. -/
theorem doScriptInjection_drops_empty_header :
    "X-Empty".toList ∈ sparseResponse.Header.map Prod.fst ∧
    "x-custom".toList ∈ sparseResponse.Header.map Prod.fst ∧
    ((doScriptInjection (hookProxy "<script>1</script></head>".toList) World.empty
        sparseResponse "text/html".toList).newResp.map (fun r => r.Header.map Prod.fst))
      = some ["Content-Type".toList, "X-Custom".toList] ∧
    "X-Empty".toList ∉ ["Content-Type".toList, "X-Custom".toList] ∧
    "x-custom".toList ∉ ["Content-Type".toList, "X-Custom".toList] := by
  decide

/-- C7: header sanitization is idempotent: for every request,
fixRequestHeaders applied twice gives what it gives applied once, and for
every response so does fixResponseHeaders. -/
theorem header_sanitizers_idempotent :
    (∀ req : Request, fixRequestHeaders (fixRequestHeaders req) = fixRequestHeaders req) ∧
    (∀ res : Response, fixResponseHeaders (fixResponseHeaders res) = fixResponseHeaders res) := by
  constructor
  · intro req
    apply fixRequestHeaders_of_fixed
    all_goals (unfold fixRequestHeaders; dsimp only)
    · exact Header.absent_Set _ _ _ _ (by decide) (Header.absent_Del _ _ _ (Header.absent_Del _ _ _ (Header.absent_Del _ _ _ (Header.absent_Del_self _ _))))
    · exact Header.absent_Set _ _ _ _ (by decide) (Header.absent_Del _ _ _ (Header.absent_Del _ _ _ (Header.absent_Del_self _ _)))
    · exact Header.absent_Set _ _ _ _ (by decide) (Header.absent_Del _ _ _ (Header.absent_Del_self _ _))
    · exact Header.absent_Set _ _ _ _ (by decide) (Header.absent_Del_self _ _)
    · exact Header.pinned_Set_self _ _ _
  · intro res
    apply fixResponseHeaders_of_fixed
    all_goals (unfold fixResponseHeaders; dsimp only)
    · exact Header.absent_Set _ _ _ _ (by decide) (Header.absent_Set _ _ _ _ (by decide) (Header.absent_Set _ _ _ _ (by decide) (Header.absent_Set _ _ _ _ (by decide) (Header.absent_Del _ _ _ (Header.absent_Del _ _ _ (Header.absent_Del _ _ _ (Header.absent_Del _ _ _ (Header.absent_Del _ _ _ (Header.absent_Del _ _ _ (Header.absent_Del _ _ _ (Header.absent_Del _ _ _ (Header.absent_Del _ _ _ (Header.absent_Del _ _ _ (Header.absent_Del _ _ _ (Header.absent_Del_self _ _)))))))))))))))
    · exact Header.absent_Set _ _ _ _ (by decide) (Header.absent_Set _ _ _ _ (by decide) (Header.absent_Set _ _ _ _ (by decide) (Header.absent_Set _ _ _ _ (by decide) (Header.absent_Del _ _ _ (Header.absent_Del _ _ _ (Header.absent_Del _ _ _ (Header.absent_Del _ _ _ (Header.absent_Del _ _ _ (Header.absent_Del _ _ _ (Header.absent_Del _ _ _ (Header.absent_Del _ _ _ (Header.absent_Del _ _ _ (Header.absent_Del _ _ _ (Header.absent_Del_self _ _))))))))))))))
    · exact Header.absent_Set _ _ _ _ (by decide) (Header.absent_Set _ _ _ _ (by decide) (Header.absent_Set _ _ _ _ (by decide) (Header.absent_Set _ _ _ _ (by decide) (Header.absent_Del _ _ _ (Header.absent_Del _ _ _ (Header.absent_Del _ _ _ (Header.absent_Del _ _ _ (Header.absent_Del _ _ _ (Header.absent_Del _ _ _ (Header.absent_Del _ _ _ (Header.absent_Del _ _ _ (Header.absent_Del _ _ _ (Header.absent_Del_self _ _)))))))))))))
    · exact Header.absent_Set _ _ _ _ (by decide) (Header.absent_Set _ _ _ _ (by decide) (Header.absent_Set _ _ _ _ (by decide) (Header.absent_Set _ _ _ _ (by decide) (Header.absent_Del _ _ _ (Header.absent_Del _ _ _ (Header.absent_Del _ _ _ (Header.absent_Del _ _ _ (Header.absent_Del _ _ _ (Header.absent_Del _ _ _ (Header.absent_Del _ _ _ (Header.absent_Del _ _ _ (Header.absent_Del_self _ _))))))))))))
    · exact Header.absent_Set _ _ _ _ (by decide) (Header.absent_Set _ _ _ _ (by decide) (Header.absent_Set _ _ _ _ (by decide) (Header.absent_Set _ _ _ _ (by decide) (Header.absent_Del _ _ _ (Header.absent_Del _ _ _ (Header.absent_Del _ _ _ (Header.absent_Del _ _ _ (Header.absent_Del _ _ _ (Header.absent_Del _ _ _ (Header.absent_Del _ _ _ (Header.absent_Del_self _ _)))))))))))
    · exact Header.absent_Set _ _ _ _ (by decide) (Header.absent_Set _ _ _ _ (by decide) (Header.absent_Set _ _ _ _ (by decide) (Header.absent_Set _ _ _ _ (by decide) (Header.absent_Del _ _ _ (Header.absent_Del _ _ _ (Header.absent_Del _ _ _ (Header.absent_Del _ _ _ (Header.absent_Del _ _ _ (Header.absent_Del _ _ _ (Header.absent_Del_self _ _))))))))))
    · exact Header.absent_Set _ _ _ _ (by decide) (Header.absent_Set _ _ _ _ (by decide) (Header.absent_Set _ _ _ _ (by decide) (Header.absent_Set _ _ _ _ (by decide) (Header.absent_Del _ _ _ (Header.absent_Del _ _ _ (Header.absent_Del _ _ _ (Header.absent_Del _ _ _ (Header.absent_Del _ _ _ (Header.absent_Del_self _ _)))))))))
    · exact Header.absent_Set _ _ _ _ (by decide) (Header.absent_Set _ _ _ _ (by decide) (Header.absent_Set _ _ _ _ (by decide) (Header.absent_Set _ _ _ _ (by decide) (Header.absent_Del _ _ _ (Header.absent_Del _ _ _ (Header.absent_Del _ _ _ (Header.absent_Del _ _ _ (Header.absent_Del_self _ _))))))))
    · exact Header.absent_Set _ _ _ _ (by decide) (Header.absent_Set _ _ _ _ (by decide) (Header.absent_Set _ _ _ _ (by decide) (Header.absent_Set _ _ _ _ (by decide) (Header.absent_Del _ _ _ (Header.absent_Del _ _ _ (Header.absent_Del _ _ _ (Header.absent_Del_self _ _)))))))
    · exact Header.absent_Set _ _ _ _ (by decide) (Header.absent_Set _ _ _ _ (by decide) (Header.absent_Set _ _ _ _ (by decide) (Header.absent_Set _ _ _ _ (by decide) (Header.absent_Del _ _ _ (Header.absent_Del _ _ _ (Header.absent_Del_self _ _))))))
    · exact Header.absent_Set _ _ _ _ (by decide) (Header.absent_Set _ _ _ _ (by decide) (Header.absent_Set _ _ _ _ (by decide) (Header.absent_Set _ _ _ _ (by decide) (Header.absent_Del _ _ _ (Header.absent_Del_self _ _)))))
    · exact Header.absent_Set _ _ _ _ (by decide) (Header.absent_Set _ _ _ _ (by decide) (Header.absent_Set _ _ _ _ (by decide) (Header.absent_Set _ _ _ _ (by decide) (Header.absent_Del_self _ _))))
    · exact Header.pinned_Set _ _ _ _ _ (by decide) (Header.pinned_Set _ _ _ _ _ (by decide) (Header.pinned_Set _ _ _ _ _ (by decide) (Header.pinned_Set_self _ _ _)))
    · exact Header.pinned_Set _ _ _ _ _ (by decide) (Header.pinned_Set _ _ _ _ _ (by decide) (Header.pinned_Set_self _ _ _))
    · exact Header.pinned_Set _ _ _ _ _ (by decide) (Header.pinned_Set_self _ _ _)
    · exact Header.pinned_Set_self _ _ _

/-- C8: given a nil response, onResponseFilter returns that nil and leaves
the world as it was: no call is recorded (neither sanitizer, nor the
stripper's Process, nor the script's OnResponse) and no event is added,
whatever the proxy's script, stripper and hook string are. -/
theorem onResponseFilter_nil (p : HTTPProxy) (w : World) :
    (onResponseFilter p w none).ret = Ref.arg ∧
    (onResponseFilter p w none).res = none ∧
    (onResponseFilter p w none).world = w ∧
    (onResponseFilter p w none).world.calls = w.calls ∧
    (onResponseFilter p w none).world.Events = w.Events :=
  ⟨rfl, rfl, rfl, rfl, rfl⟩

/-- C9: take a non-nil response whose Content-Type, as the filter reads it
after the sanitizer and the stripper's Process, does not contain `text/html`.
Whatever the hook string and the script are, the response is not eligible,
the filter leaves it exactly as the stripper left it (so its body is the one
the stripper left, unread and unclosed), and the calls made include neither
doScriptInjection nor a read or close of the body.  If moreover the script is
absent or yields no response, the filter returns the response it was given
and emits no event. -/
theorem onResponseFilter_non_html (p : HTTPProxy) (w : World) (res : Response)
    (hct : strings.Contains
      (getHeader (p.stripper.Process (fixResponseHeaders res)) "Content-Type".toList)
      "text/html".toList = false) :
    (isScriptInjectable p (p.stripper.Process (fixResponseHeaders res))).1 = false ∧
    (onResponseFilter p w (some res)).res = some (p.stripper.Process (fixResponseHeaders res)) ∧
    ((p.stripper.Process (fixResponseHeaders res)).Body = res.Body →
      (onResponseFilter p w (some res)).res.map (fun r => r.Body) = some res.Body) ∧
    (∃ cs, (onResponseFilter p w (some res)).world.calls = w.calls ++ cs ∧
      Call.doScriptInjection ∉ cs ∧ Call.ReadAll ∉ cs ∧ Call.Close ∉ cs) ∧
    ((∀ script, p.Script = some script →
        (script.OnResponse (p.stripper.Process (fixResponseHeaders res))).2 = none) →
      (onResponseFilter p w (some res)).ret = Ref.arg ∧
      (onResponseFilter p w (some res)).world.Events = w.Events) := by
  have hno := isScriptInjectable_non_html p _ hct
  have hres : (onResponseFilter p w (some res)).res
      = some (p.stripper.Process (fixResponseHeaders res)) := by
    cases hs : p.Script with
    | none => simp only [onResponseFilter, hs, injectStage_skip _ _ _ hno]
    | some script =>
      cases hjs : (script.OnResponse (p.stripper.Process (fixResponseHeaders res))).2 with
      | none => simp only [onResponseFilter, hs, hjs, injectStage_skip _ _ _ hno]
      | some jsres => simp only [onResponseFilter, hs, hjs]
  have hcalls : ∃ cs, (onResponseFilter p w (some res)).world.calls = w.calls ++ cs ∧
      Call.doScriptInjection ∉ cs ∧ Call.ReadAll ∉ cs ∧ Call.Close ∉ cs := by
    cases hs : p.Script with
    | none =>
      refine ⟨[Call.fixResponseHeaders, Call.Process], ?_, by decide, by decide, by decide⟩
      simp only [onResponseFilter, hs, injectStage_skip _ _ _ hno, World.call,
        List.append_assoc, List.singleton_append]
    | some script =>
      refine ⟨[Call.fixResponseHeaders, Call.Process, Call.OnResponse], ?_,
        by decide, by decide, by decide⟩
      cases hjs : (script.OnResponse (p.stripper.Process (fixResponseHeaders res))).2 with
      | none =>
        simp only [onResponseFilter, hs, hjs, injectStage_skip _ _ _ hno, World.call,
          List.append_assoc, List.singleton_append, List.cons_append, List.nil_append]
      | some jsres =>
        simp only [onResponseFilter, hs, hjs, logResponseAction, World.Add, World.call,
          List.append_assoc, List.singleton_append, List.cons_append, List.nil_append]
  refine ⟨hno, hres, ?_, hcalls, ?_⟩
  · intro hbody
    rw [hres, Option.map_some', hbody]
  · intro hscript
    obtain ⟨cs, _, _, _, heq⟩ := onResponseFilter_no_script_reply p w res hscript
    rw [heq, injectStage_skip _ _ _ hno]
    exact ⟨rfl, rfl⟩

/-- C9, witness: a JSON response through a proxy with a hook string and no
script. -/
theorem onResponseFilter_non_html_witness :
    strings.Contains
      (getHeader (idleStripper.Process (fixResponseHeaders jsonResponse)) "Content-Type".toList)
      "text/html".toList = false ∧
    (onResponseFilter (hookProxy "<script>1</script></head>".toList) World.empty
      (some jsonResponse)).ret = Ref.arg ∧
    (onResponseFilter (hookProxy "<script>1</script></head>".toList) World.empty
      (some jsonResponse)).res.map (fun r => r.Body) = some jsonResponse.Body :=
  ⟨by decide,
   ((onResponseFilter_non_html (hookProxy "<script>1</script></head>".toList) World.empty
      jsonResponse (by decide)).2.2.2.2 (fun _ h => nomatch h)).1,
   (onResponseFilter_non_html (hookProxy "<script>1</script></head>".toList) World.empty
      jsonResponse (by decide)).2.2.1 rfl⟩

/-- C10: take a non-nil response that, after the sanitizer and the
stripper's Process, is eligible for injection and whose body read fails with
`err`, the script being absent or yielding no response.  Then
doScriptInjection on it returns `err` and no response, and onResponseFilter
returns the response it was given, not a replacement, and emits no event. -/
theorem onResponseFilter_read_error (p : HTTPProxy) (w : World) (res : Response)
    (err : GoString)
    (helig : (isScriptInjectable p (p.stripper.Process (fixResponseHeaders res))).1 = true)
    (hfail : (ioutil.ReadAll (p.stripper.Process (fixResponseHeaders res)).Body).2 = .error err)
    (hscript : ∀ script, p.Script = some script →
      (script.OnResponse (p.stripper.Process (fixResponseHeaders res))).2 = none) :
    (∀ w1 cType,
      (doScriptInjection p w1 (p.stripper.Process (fixResponseHeaders res)) cType).err = some err ∧
      (doScriptInjection p w1 (p.stripper.Process (fixResponseHeaders res)) cType).newResp
        = none) ∧
    (onResponseFilter p w (some res)).ret = Ref.arg ∧
    (onResponseFilter p w (some res)).world.Events = w.Events := by
  constructor
  · intro w1 cType
    rw [doScriptInjection_error p w1 _ cType err hfail]
    exact ⟨rfl, rfl⟩
  · obtain ⟨cs, _, _, _, heq⟩ := onResponseFilter_no_script_reply p w res hscript
    rw [heq]
    simp only [injectStage, helig, if_true, doScriptInjection_error p _ _ _ err hfail]
    exact ⟨trivial, rfl⟩

/-- C10, witness: the sample HTML response on a connection that breaks with
`unexpected EOF`. -/
theorem onResponseFilter_read_error_witness :
    (isScriptInjectable (hookProxy "<script>1</script></head>".toList)
      (idleStripper.Process (fixResponseHeaders brokenResponse))).1 = true ∧
    (ioutil.ReadAll (idleStripper.Process (fixResponseHeaders brokenResponse)).Body).2
      = .error "unexpected EOF".toList ∧
    (onResponseFilter (hookProxy "<script>1</script></head>".toList) World.empty
      (some brokenResponse)).ret = Ref.arg ∧
    (onResponseFilter (hookProxy "<script>1</script></head>".toList) World.empty
      (some brokenResponse)).world.Events = [] :=
  ⟨by decide, rfl,
   (onResponseFilter_read_error (hookProxy "<script>1</script></head>".toList) World.empty
      brokenResponse "unexpected EOF".toList (by decide) rfl (fun _ h => nomatch h)).2⟩

/-- C14: isScriptInjectable reports a response eligible exactly when the
hook string is non-empty and the Content-Type value found by getHeader
contains `text/html`; the content type it returns is that raw value when
eligible and the empty string otherwise.  The match is on the exact
spelling: a response whose Content-Type is `TEXT/HTML` is not eligible. -/
theorem isScriptInjectable_spec :
    (∀ (p : HTTPProxy) (res : Response),
      ((isScriptInjectable p res).1 = true ↔
        (p.jsHook ≠ [] ∧
          strings.Contains (getHeader res "Content-Type".toList) "text/html".toList = true)) ∧
      (isScriptInjectable p res).2
        = if (isScriptInjectable p res).1 then getHeader res "Content-Type".toList else []) ∧
    getHeader upperCaseResponse "Content-Type".toList = "TEXT/HTML".toList ∧
    isScriptInjectable (hookProxy "<script>1</script></head>".toList) upperCaseResponse
      = (false, []) := by
  refine ⟨?_, by decide, by decide⟩
  intro p res
  unfold isScriptInjectable
  dsimp only
  by_cases hh : p.jsHook = []
  · rw [if_pos hh]
    exact ⟨⟨fun h => absurd h (by simp), fun h => absurd hh h.1⟩, rfl⟩
  · by_cases hc : strings.Contains (getHeader res "Content-Type".toList) "text/html".toList = true
    · rw [if_neg hh, if_pos hc]
      exact ⟨⟨fun _ => ⟨hh, hc⟩, fun _ => rfl⟩, rfl⟩
    · rw [if_neg hh, if_neg hc]
      exact ⟨⟨fun h => absurd h (by simp), fun h => absurd h.2 hc⟩, rfl⟩

/-- C15 (as the code has it): when the stripper does not redirect and the
script's OnRequest yields no request but a fake response `jsres`,
onRequestFilter appends exactly the event `<p.Name>.spoofed-response` whose
record has the text of the request's client address before its first colon,
the method, host and path of the request itself and the length of the fake
body, and returns the request it was given together with
`jsres.ToResponse(req)`.  That text is the client address without its port
whenever the address is `host:port` with no colon in the host (an IPv4
address or a host name). -/
theorem onRequestFilter_spoofed_response (p : HTTPProxy) (w : World) (req : Request)
    (script : ProxyScript) (jsres : JSResponse)
    (hredir : p.stripper.Preprocess (fixRequestHeaders req) = none)
    (hscript : p.Script = some script)
    (hjs : script.OnRequest (fixRequestHeaders req) = (none, some jsres)) :
    (onRequestFilter p w req).world.Events = w.Events ++
      [{ Tag := p.Name ++ ".spoofed-response".toList
         Data := { To := strings.SplitHead req.RemoteAddr ":".toList
                   Method := req.Method
                   Host := req.Host
                   Path := req.URL.Path
                   Size := jsres.Body.length } }] ∧
    (onRequestFilter p w req).retReq = Ref.arg ∧
    (onRequestFilter p w req).req = fixRequestHeaders req ∧
    (onRequestFilter p w req).retRes = some (jsres.ToResponse (fixRequestHeaders req)) ∧
    (∀ host port : GoString, ':' ∉ host → ':' ∉ port →
      req.RemoteAddr = host ++ ":".toList ++ port →
      strings.SplitHead req.RemoteAddr ":".toList = host ∧
      withoutPort req.RemoteAddr = host) := by
  have hrun : onRequestFilter p w req =
      { world := logResponseAction p
          (((w.call Call.fixRequestHeaders).call Call.Preprocess).call Call.OnRequest)
          (fixRequestHeaders req) jsres
        req := fixRequestHeaders req
        retReq := Ref.arg
        retRes := some (jsres.ToResponse (fixRequestHeaders req)) } := by
    simp only [onRequestFilter, hredir, hscript, hjs]
  rw [hrun]
  refine ⟨rfl, rfl, rfl, rfl, ?_⟩
  intro host port hh hp haddr
  rw [haddr]
  exact ⟨strings.SplitHead_host host port hh, withoutPort_host host port hp⟩

/-- C15, witness: a script answering the sample request (a `GET` of
`site.test/index.html` from `1.2.3.4:9999`) with the 4-byte body `fake`. -/
theorem onRequestFilter_spoofed_response_witness :
    idleStripper.Preprocess (fixRequestHeaders sampleRequest) = none ∧
    fakeScript.OnRequest (fixRequestHeaders sampleRequest) = (none, some fakeResponse) ∧
    (onRequestFilter { hookProxy [] with Script := some fakeScript } World.empty
        sampleRequest).world.Events
      = [{ Tag := "http.proxy.spoofed-response".toList
           Data := { To := "1.2.3.4".toList, Method := "GET".toList,
                     Host := "site.test".toList, Path := "/index.html".toList, Size := 4 } }] ∧
    withoutPort sampleRequest.RemoteAddr = "1.2.3.4".toList :=
  ⟨rfl, rfl,
   (onRequestFilter_spoofed_response { hookProxy [] with Script := some fakeScript }
      World.empty sampleRequest fakeScript fakeResponse rfl rfl rfl).1.trans (by decide),
   ((onRequestFilter_spoofed_response { hookProxy [] with Script := some fakeScript }
      World.empty sampleRequest fakeScript fakeResponse rfl rfl rfl).2.2.2.2
        "1.2.3.4".toList "9999".toList (by decide) (by decide) rfl).2⟩

/-- C15, counterexample to the claim as stated: for the IPv6 client
`[::1]:8080`, whose address without its port is `[::1]`, the record of the
`spoofed-response` event has `to` equal to `[`, the text before the first
colon. -/
theorem onRequestFilter_spoofed_response_ipv6 :
    idleStripper.Preprocess (fixRequestHeaders ipv6Request) = none ∧
    fakeScript.OnRequest (fixRequestHeaders ipv6Request) = (none, some fakeResponse) ∧
    withoutPort ipv6Request.RemoteAddr = "[::1]".toList ∧
    (onRequestFilter { hookProxy [] with Script := some fakeScript } World.empty
        ipv6Request).world.Events
      = [{ Tag := "http.proxy.spoofed-response".toList
           Data := { To := "[".toList, Method := "GET".toList,
                     Host := "site.test".toList, Path := "/index.html".toList, Size := 4 } }] ∧
    "[".toList ≠ withoutPort ipv6Request.RemoteAddr := by
  refine ⟨rfl, rfl, by decide, by decide, by decide⟩

/-- C16: when the script's OnResponse yields a replacement `jsres` for a
non-nil response, onResponseFilter appends exactly the event
`<p.Name>.spoofed-response`, built from the fields of the response's request
and the length of the replacement body, and returns
`jsres.ToResponse(res.Request)`.  Injection is skipped: the calls made are the
sanitizer, Process and OnResponse only, the response given is left as the
stripper left it (its body is not read), and the run is the same for every
hook string; no assumption is made on the Content-Type. -/
theorem onResponseFilter_script_reply (p : HTTPProxy) (w : World) (res : Response)
    (script : ProxyScript) (jsres : JSResponse)
    (hscript : p.Script = some script)
    (hjs : (script.OnResponse (p.stripper.Process (fixResponseHeaders res))).2 = some jsres) :
    (onResponseFilter p w (some res)).ret
      = Ref.other (jsres.ToResponse (p.stripper.Process (fixResponseHeaders res)).Request) ∧
    (onResponseFilter p w (some res)).world.Events = w.Events ++
      [{ Tag := p.Name ++ ".spoofed-response".toList
         Data :=
          { To := strings.SplitHead
              (p.stripper.Process (fixResponseHeaders res)).Request.RemoteAddr ":".toList
            Method := (p.stripper.Process (fixResponseHeaders res)).Request.Method
            Host := (p.stripper.Process (fixResponseHeaders res)).Request.Host
            Path := (p.stripper.Process (fixResponseHeaders res)).Request.URL.Path
            Size := jsres.Body.length } }] ∧
    (onResponseFilter p w (some res)).world.calls
      = w.calls ++ [Call.fixResponseHeaders, Call.Process, Call.OnResponse] ∧
    (onResponseFilter p w (some res)).res = some (p.stripper.Process (fixResponseHeaders res)) ∧
    (∀ hook : GoString,
      onResponseFilter { p with jsHook := hook } w (some res)
        = onResponseFilter p w (some res)) := by
  have hrun : ∀ hook : GoString, onResponseFilter { p with jsHook := hook } w (some res) =
      { world := logResponseAction p
          (((w.call Call.fixResponseHeaders).call Call.Process).call Call.OnResponse)
          (p.stripper.Process (fixResponseHeaders res)).Request jsres
        res := some (p.stripper.Process (fixResponseHeaders res))
        ret := Ref.other
          (jsres.ToResponse (p.stripper.Process (fixResponseHeaders res)).Request) } := by
    intro hook
    simp only [onResponseFilter, hscript, hjs]
    rfl
  have hp : onResponseFilter p w (some res)
      = onResponseFilter { p with jsHook := p.jsHook } w (some res) := rfl
  refine ⟨?_, ?_, ?_, ?_, ?_⟩
  · rw [hp, hrun]
  · rw [hp, hrun]
    rfl
  · rw [hp, hrun]
    simp only [logResponseAction, World.Add, World.call, List.append_assoc,
      List.singleton_append, List.cons_append, List.nil_append]
  · rw [hp, hrun]
  · intro hook
    rw [hp, hrun, hrun]

/-- C16, witness: the sample HTML response, eligible for injection under
the hook string, is replaced by the script's response; its body is not
read. -/
theorem onResponseFilter_script_reply_witness :
    (fakeScript.OnResponse (idleStripper.Process (fixResponseHeaders (htmlResponse sampleHTML)))).2
      = some fakeResponse ∧
    (isScriptInjectable
      { hookProxy "<script>1</script></head>".toList with Script := some fakeScript }
      (idleStripper.Process (fixResponseHeaders (htmlResponse sampleHTML)))).1 = true ∧
    (onResponseFilter
      { hookProxy "<script>1</script></head>".toList with Script := some fakeScript }
      World.empty (some (htmlResponse sampleHTML))).ret
      = Ref.other (fakeResponse.ToResponse sampleRequest) ∧
    (onResponseFilter
      { hookProxy "<script>1</script></head>".toList with Script := some fakeScript }
      World.empty (some (htmlResponse sampleHTML))).world.Events
      = [{ Tag := "http.proxy.spoofed-response".toList
           Data := { To := "1.2.3.4".toList, Method := "GET".toList,
                     Host := "site.test".toList, Path := "/index.html".toList, Size := 4 } }] :=
  ⟨rfl, by decide,
   (onResponseFilter_script_reply
      { hookProxy "<script>1</script></head>".toList with Script := some fakeScript }
      World.empty (htmlResponse sampleHTML) fakeScript fakeResponse rfl rfl).1,
   (onResponseFilter_script_reply
      { hookProxy "<script>1</script></head>".toList with Script := some fakeScript }
      World.empty (htmlResponse sampleHTML) fakeScript fakeResponse rfl rfl).2.1.trans
        (by decide)⟩

/-- C19: when the stripper does not redirect and the script's OnRequest
yields both a rewritten request `jsreq` and a fake response `jsres`, the
request wins: onRequestFilter returns `jsreq.ToRequest()` and no response,
appends exactly one event, the `<p.Name>.spoofed-request` one, and the run is
the one of a script that yields `jsreq` alone: the fake response is
discarded. -/
theorem onRequestFilter_request_precedence (p : HTTPProxy) (w : World) (req : Request)
    (script : ProxyScript) (jsreq : JSRequest) (jsres : JSResponse)
    (hredir : p.stripper.Preprocess (fixRequestHeaders req) = none)
    (hscript : p.Script = some script)
    (hjs : script.OnRequest (fixRequestHeaders req) = (some jsreq, some jsres)) :
    (onRequestFilter p w req).retReq = Ref.other jsreq.ToRequest ∧
    (onRequestFilter p w req).retRes = none ∧
    (onRequestFilter p w req).world.Events = w.Events ++
      [{ Tag := p.Name ++ ".spoofed-request".toList
         Data := { To := strings.SplitHead req.RemoteAddr ":".toList
                   Method := jsreq.Method
                   Host := jsreq.Hostname
                   Path := jsreq.Path
                   Size := jsreq.Body.length } }] ∧
    (∀ script1 : ProxyScript, script1.OnRequest (fixRequestHeaders req) = (some jsreq, none) →
      onRequestFilter { p with Script := some script1 } w req = onRequestFilter p w req) := by
  have hrun : ∀ (s1 : ProxyScript) (r : Option JSResponse),
      s1.OnRequest (fixRequestHeaders req) = (some jsreq, r) →
      onRequestFilter { p with Script := some s1 } w req =
      { world := logRequestAction p
          (((w.call Call.fixRequestHeaders).call Call.Preprocess).call Call.OnRequest)
          (fixRequestHeaders req) jsreq
        req := fixRequestHeaders req
        retReq := Ref.other jsreq.ToRequest
        retRes := none } := by
    intro s1 r h1
    simp only [onRequestFilter, hredir, h1]
    rfl
  have hp : onRequestFilter p w req = onRequestFilter { p with Script := some script } w req := by
    rw [← hscript]
  refine ⟨?_, ?_, ?_, ?_⟩
  · rw [hp, hrun script _ hjs]
  · rw [hp, hrun script _ hjs]
  · rw [hp, hrun script _ hjs]
    rfl
  · intro script1 h1
    rw [hp, hrun script _ hjs, hrun script1 _ h1]

/-- C19, witness: a script yielding both `spoofedRequest` and
`fakeResponse` for the sample request. -/
theorem onRequestFilter_request_precedence_witness :
    bothScript.OnRequest (fixRequestHeaders sampleRequest)
      = (some spoofedRequest, some fakeResponse) ∧
    (onRequestFilter { hookProxy [] with Script := some bothScript } World.empty
        sampleRequest).retRes = none ∧
    (onRequestFilter { hookProxy [] with Script := some bothScript } World.empty
        sampleRequest).world.Events
      = [{ Tag := "http.proxy.spoofed-request".toList
           Data := { To := "1.2.3.4".toList, Method := "POST".toList,
                     Host := "evil.test".toList, Path := "/x".toList, Size := 5 } }] :=
  ⟨rfl,
   (onRequestFilter_request_precedence { hookProxy [] with Script := some bothScript }
      World.empty sampleRequest bothScript spoofedRequest fakeResponse rfl rfl rfl).2.1,
   (onRequestFilter_request_precedence { hookProxy [] with Script := some bothScript }
      World.empty sampleRequest bothScript spoofedRequest fakeResponse rfl rfl rfl).2.2.1.trans
        (by decide)⟩

/-- C17: over the explicit event list, a run of onRequestFilter appends
exactly one event when the script stage is reached and the script yields a
request or a response, and none otherwise (stripper redirect, no script, a
script that yields nothing); a run of onResponseFilter appends exactly one
event when the response is not nil and the script yields a replacement, and
none otherwise (nil response, pass-through, replacement by injection).  The
events already there are kept in both cases.  On the sample page the
injection replaces the response and the event list stays empty. -/
theorem filters_emit_one_event_per_script_reply :
    (∀ (p : HTTPProxy) (w : World) (req : Request),
      ∃ es, (onRequestFilter p w req).world.Events = w.Events ++ es ∧
        es.length = if scriptRequestReply p req then 1 else 0) ∧
    (∀ (p : HTTPProxy) (w : World) (res : Option Response),
      ∃ es, (onResponseFilter p w res).world.Events = w.Events ++ es ∧
        es.length = if scriptResponseReply p res then 1 else 0) ∧
    (onResponseFilter (hookProxy "<script>1</script></head>".toList) World.empty
        (some (htmlResponse sampleHTML))).ret ≠ Ref.arg ∧
    (onResponseFilter (hookProxy "<script>1</script></head>".toList) World.empty
        (some (htmlResponse sampleHTML))).world.Events = [] :=
  ⟨onRequestFilter_events, onResponseFilter_events, by decide, by decide⟩

/-- C20: the sanitizers touch only the headers they name.  For every
request, the headers stored under any name other than the (canonical) names
Accept-Encoding, If-None-Match, If-Modified-Since, Upgrade-Insecure-Requests
and Pragma are, after fixRequestHeaders, the same entries with the same
ordered values in the same order, and no other field of the request changes;
for every response the same holds of fixResponseHeaders and the twelve names
it deletes and four names it sets. -/
theorem header_sanitizers_frame :
    (∀ req : Request,
      (fixRequestHeaders req).Header.except requestSanitized
        = req.Header.except requestSanitized ∧
      (fixRequestHeaders req).RemoteAddr = req.RemoteAddr ∧
      (fixRequestHeaders req).Method = req.Method ∧
      (fixRequestHeaders req).Host = req.Host ∧
      (fixRequestHeaders req).URL = req.URL) ∧
    (∀ res : Response,
      (fixResponseHeaders res).Header.except responseSanitized
        = res.Header.except responseSanitized ∧
      (fixResponseHeaders res).StatusCode = res.StatusCode ∧
      (fixResponseHeaders res).Body = res.Body ∧
      (fixResponseHeaders res).Request = res.Request ∧
      (fixResponseHeaders res).ContentLength = res.ContentLength) :=
  ⟨fun req => ⟨fixRequestHeaders_except req, fixRequestHeaders_fields req⟩,
   fun res => ⟨fixResponseHeaders_except res, fixResponseHeaders_fields res⟩⟩

/-- C18 (as the code has it): whatever function `strings.ToLower` is, for
every response and queried name getHeader returns the first value of the
first header, in iteration order, that has a value and whose name equals the
queried name ignoring letter case (the two have the same lower-case form), and
the empty string when there is no such header; the result is the same for
every casing of the queried name and of the stored names.  A result that is
not empty always comes from such a header; an empty result can also be the
empty first value of a header that is present.  `getHeader` is the instance
at the ASCII lower-casing of this file. -/
theorem getHeader_spec (lower : GoString → GoString) (res : Response) (name : GoString) :
    (getHeaderWith lower res name
      = match Header.firstNamedWith lower res.Header name with
        | some e => e.2.headD []
        | none => []) ∧
    (∀ name1, lower name1 = lower name →
      getHeaderWith lower res name1 = getHeaderWith lower res name) ∧
    (∀ f : GoString → GoString, (∀ n, lower (f n) = lower n) →
      getHeaderWith lower { res with Header := res.Header.map (fun e => (f e.1, e.2)) } name
        = getHeaderWith lower res name) ∧
    (Header.firstNamedWith lower res.Header name = none → getHeaderWith lower res name = []) ∧
    (getHeaderWith lower res name ≠ [] →
      (Header.firstNamedWith lower res.Header name).isSome = true) ∧
    getHeader res name = getHeaderWith strings.ToLower res name := by
  have hmain : getHeaderWith lower res name
      = match Header.firstNamedWith lower res.Header name with
        | some e => e.2.headD []
        | none => [] := getHeaderLoopWith_eq lower name res.Header
  refine ⟨hmain, ?_, ?_, ?_, ?_, ?_⟩
  · intro name1 h1
    unfold getHeaderWith
    rw [h1]
  · intro f hf
    exact getHeaderLoopWith_recase lower _ res.Header f hf
  · intro hnone
    rw [hmain, hnone]
  · intro hne
    cases hf : Header.firstNamedWith lower res.Header name with
    | none =>
      rw [hmain, hf] at hne
      exact absurd rfl hne
    | some e => rfl
  · exact getHeaderLoop_with _ res.Header

/-- C18, witness: the sample response stores `Content-Type`; the queries
`CONTENT-TYPE` and `Content-Type` have the same lower-case form and both
return `text/html; charset=utf-8`. -/
theorem getHeader_spec_witness :
    strings.ToLower "CONTENT-TYPE".toList = strings.ToLower "Content-Type".toList ∧
    getHeaderWith strings.ToLower (htmlResponse sampleHTML) "CONTENT-TYPE".toList
      = getHeaderWith strings.ToLower (htmlResponse sampleHTML) "Content-Type".toList ∧
    getHeader (htmlResponse sampleHTML) "Content-Type".toList
      = "text/html; charset=utf-8".toList :=
  ⟨by decide,
   (getHeader_spec strings.ToLower (htmlResponse sampleHTML) "Content-Type".toList).2.1
      "CONTENT-TYPE".toList (by decide),
   by decide⟩

/-- C18, counterexample to "the empty string exactly when no such header is
present": a response whose `Content-Type` header has the single value `""`
has a header of that name with a value, and getHeader returns the empty
string for it. -/
theorem getHeader_empty_value :
    Header.firstNamedWith strings.ToLower emptyTypeResponse.Header "Content-Type".toList
      = some ("Content-Type".toList, [[]]) ∧
    getHeader emptyTypeResponse "Content-Type".toList = [] ∧
    (∀ lower : GoString → GoString,
      getHeaderWith lower emptyTypeResponse "Content-Type".toList = []) := by
  refine ⟨by decide, by decide, fun lower => ?_⟩
  show getHeaderLoopWith lower (lower "Content-Type".toList)
    [("Content-Type".toList, [[]])] = []
  unfold getHeaderLoopWith
  rw [getHeaderValuesWith_eq, if_pos rfl]
  rfl

/-- C12 (as the code has it): for every request whose header names are
stored in canonical MIME form, after fixRequestHeaders no header remains
whose name equals Accept-Encoding, If-None-Match, If-Modified-Since or
Upgrade-Insecure-Requests ignoring letter case, and Pragma has exactly the
single value `no-cache`: the entry `Pragma: [no-cache]` is there and every
header named Pragma, ignoring letter case, is that entry. -/
theorem fixRequestHeaders_spec (req : Request) (hcanon : req.Header.canonical) :
    (∀ name ∈ requestRemoved, ∀ e ∈ (fixRequestHeaders req).Header,
      strings.ToLower e.1 ≠ strings.ToLower name) ∧
    ("Pragma".toList, ["no-cache".toList]) ∈ (fixRequestHeaders req).Header ∧
    (∀ e ∈ (fixRequestHeaders req).Header,
      strings.ToLower e.1 = strings.ToLower "Pragma".toList →
      e = ("Pragma".toList, ["no-cache".toList])) ∧
    (fixRequestHeaders req).Header.Values "Pragma".toList = ["no-cache".toList] := by
  obtain ⟨d0, d1, d2, d3, s0⟩ := fixRequestHeaders_shape req
  have hc := fixRequestHeaders_canonical req hcanon
  have hP : textproto.CanonicalMIMEHeaderKey "Pragma".toList = "Pragma".toList := by decide
  have hgone : ∀ name : GoString, name.all textproto.validHeaderFieldByte = true →
      (fixRequestHeaders req).Header.absent (textproto.CanonicalMIMEHeaderKey name) →
      ∀ e ∈ (fixRequestHeaders req).Header, strings.ToLower e.1 ≠ strings.ToLower name := by
    intro name hv ha e he hlow
    have h1 := textproto.canonical_congr e.1 name hlow hv
    rw [hc e he] at h1
    exact ha e he h1
  refine ⟨?_, ?_, ?_, ?_⟩
  · intro name hmem
    simp only [requestRemoved, List.mem_cons, List.mem_singleton, List.not_mem_nil,
      or_false] at hmem
    rcases hmem with rfl | rfl | rfl | rfl
    · exact hgone _ (by decide) d0
    · exact hgone _ (by decide) d1
    · exact hgone _ (by decide) d2
    · exact hgone _ (by decide) d3
  · have hmem := Header.mem_of_pinned _ _ _ s0
    rw [hP] at hmem
    exact hmem
  · intro e he hlow
    have h1 := textproto.canonical_congr e.1 "Pragma".toList hlow (by decide)
    rw [hc e he] at h1
    have h2 := s0.2 e he h1
    rw [hP] at h2
    exact h2
  · exact Header.lookup_of_pinned _ _ _ s0

/-- C12, witness: the sample request, which stores `Accept-Encoding: gzip`
under its canonical name. -/
theorem fixRequestHeaders_spec_witness :
    sampleRequest.Header.canonical ∧
    (∀ e ∈ (fixRequestHeaders sampleRequest).Header,
      strings.ToLower e.1 ≠ strings.ToLower "Accept-Encoding".toList) ∧
    (fixRequestHeaders sampleRequest).Header.Values "Pragma".toList = ["no-cache".toList] :=
  ⟨by unfold Header.canonical; decide,
   (fixRequestHeaders_spec sampleRequest (by unfold Header.canonical; decide)).1
      "Accept-Encoding".toList (by decide),
   (fixRequestHeaders_spec sampleRequest (by unfold Header.canonical; decide)).2.2.2⟩

/-- C12, counterexample to the claim as stated: a request that stores
`gzip` under the lower-case name `accept-encoding` still has that header after
fixRequestHeaders, and a lookup of `Accept-Encoding` that ignores letter case
finds `gzip`. -/
theorem fixRequestHeaders_keeps_lower_case_name :
    ("accept-encoding".toList, ["gzip".toList]) ∈ (fixRequestHeaders lowerCaseRequest).Header ∧
    strings.ToLower "accept-encoding".toList = strings.ToLower "Accept-Encoding".toList ∧
    getHeaderLoop (strings.ToLower "Accept-Encoding".toList)
      (fixRequestHeaders lowerCaseRequest).Header = "gzip".toList := by
  decide

/-- C13 (as the code has it): for every response whose header names are
stored in canonical MIME form, after fixResponseHeaders none of the twelve
security headers remains: `Header.Values` of the name is empty and no header
has that name, ignoring the case of its ASCII letters (the way HTTP compares
field names); and each of the four CORS headers has exactly the single value
`*`, whatever it held before: the entry `[*]` is there under the name, every
header with that name, ignoring the case of its ASCII letters, is that entry,
and `Header.Values` of the name is `[*]`. -/
theorem fixResponseHeaders_spec (res : Response) (hcanon : res.Header.canonical) :
    (∀ name ∈ securityHeaders,
      (fixResponseHeaders res).Header.Values name = [] ∧
      ∀ e ∈ (fixResponseHeaders res).Header, strings.ToLower e.1 ≠ strings.ToLower name) ∧
    (∀ name ∈ corsHeaders,
      (name, ["*".toList]) ∈ (fixResponseHeaders res).Header ∧
      (∀ e ∈ (fixResponseHeaders res).Header,
        strings.ToLower e.1 = strings.ToLower name → e = (name, ["*".toList])) ∧
      (fixResponseHeaders res).Header.Values name = ["*".toList]) := by
  obtain ⟨d0, d1, d2, d3, d4, d5, d6, d7, d8, d9, d10, d11, s0, s1, s2, s3⟩ :=
    fixResponseHeaders_shape res
  have hc := fixResponseHeaders_canonical res hcanon
  constructor
  · intro name hmem
    simp only [securityHeaders, List.mem_cons, List.mem_singleton, List.not_mem_nil,
      or_false] at hmem
    rcases hmem with rfl | rfl | rfl | rfl | rfl | rfl | rfl | rfl | rfl | rfl | rfl | rfl
    · exact ⟨Header.lookup_of_absent _ _ d0,
        Header.absent_any_case _ hc _ (by decide) d0⟩
    · exact ⟨Header.lookup_of_absent _ _ d1,
        Header.absent_any_case _ hc _ (by decide) d1⟩
    · exact ⟨Header.lookup_of_absent _ _ d2,
        Header.absent_any_case _ hc _ (by decide) d2⟩
    · exact ⟨Header.lookup_of_absent _ _ d3,
        Header.absent_any_case _ hc _ (by decide) d3⟩
    · exact ⟨Header.lookup_of_absent _ _ d4,
        Header.absent_any_case _ hc _ (by decide) d4⟩
    · exact ⟨Header.lookup_of_absent _ _ d5,
        Header.absent_any_case _ hc _ (by decide) d5⟩
    · exact ⟨Header.lookup_of_absent _ _ d6,
        Header.absent_any_case _ hc _ (by decide) d6⟩
    · exact ⟨Header.lookup_of_absent _ _ d7,
        Header.absent_any_case _ hc _ (by decide) d7⟩
    · exact ⟨Header.lookup_of_absent _ _ d8,
        Header.absent_any_case _ hc _ (by decide) d8⟩
    · exact ⟨Header.lookup_of_absent _ _ d9,
        Header.absent_any_case _ hc _ (by decide) d9⟩
    · exact ⟨Header.lookup_of_absent _ _ d10,
        Header.absent_any_case _ hc _ (by decide) d10⟩
    · exact ⟨Header.lookup_of_absent _ _ d11,
        Header.absent_any_case _ hc _ (by decide) d11⟩
  · intro name hmem
    simp only [corsHeaders, List.mem_cons, List.mem_singleton, List.not_mem_nil,
      or_false] at hmem
    rcases hmem with rfl | rfl | rfl | rfl
    · have hk : textproto.CanonicalMIMEHeaderKey "Allow-Access-From-Same-Origin".toList
          = "Allow-Access-From-Same-Origin".toList := by decide
      have hm := Header.mem_of_pinned _ _ _ s0
      have ha := Header.pinned_any_case _ hc "Allow-Access-From-Same-Origin".toList _ (by decide) s0
      rw [hk] at hm ha
      exact ⟨hm, ha, Header.lookup_of_pinned _ _ _ s0⟩
    · have hk : textproto.CanonicalMIMEHeaderKey "Access-Control-Allow-Origin".toList
          = "Access-Control-Allow-Origin".toList := by decide
      have hm := Header.mem_of_pinned _ _ _ s1
      have ha := Header.pinned_any_case _ hc "Access-Control-Allow-Origin".toList _ (by decide) s1
      rw [hk] at hm ha
      exact ⟨hm, ha, Header.lookup_of_pinned _ _ _ s1⟩
    · have hk : textproto.CanonicalMIMEHeaderKey "Access-Control-Allow-Methods".toList
          = "Access-Control-Allow-Methods".toList := by decide
      have hm := Header.mem_of_pinned _ _ _ s2
      have ha := Header.pinned_any_case _ hc "Access-Control-Allow-Methods".toList _ (by decide) s2
      rw [hk] at hm ha
      exact ⟨hm, ha, Header.lookup_of_pinned _ _ _ s2⟩
    · have hk : textproto.CanonicalMIMEHeaderKey "Access-Control-Allow-Headers".toList
          = "Access-Control-Allow-Headers".toList := by decide
      have hm := Header.mem_of_pinned _ _ _ s3
      have ha := Header.pinned_any_case _ hc "Access-Control-Allow-Headers".toList _ (by decide) s3
      rw [hk] at hm ha
      exact ⟨hm, ha, Header.lookup_of_pinned _ _ _ s3⟩

/-- C13, witness: a response with canonical names that carries
`X-Frame-Options: DENY` and allows one origin. -/
theorem fixResponseHeaders_spec_witness :
    securedResponse.Header.canonical ∧
    (∀ e ∈ (fixResponseHeaders securedResponse).Header,
      strings.ToLower e.1 ≠ strings.ToLower "X-Frame-Options".toList) ∧
    (fixResponseHeaders securedResponse).Header.Values "Access-Control-Allow-Origin".toList
      = ["*".toList] :=
  ⟨by unfold Header.canonical; decide,
   ((fixResponseHeaders_spec securedResponse (by unfold Header.canonical; decide)).1
      "X-Frame-Options".toList (by decide)).2,
   ((fixResponseHeaders_spec securedResponse (by unfold Header.canonical; decide)).2
      "Access-Control-Allow-Origin".toList (by decide)).2.2⟩

/-- C13, counterexample to the claim as stated: a response that stores
`x-frame-options: DENY`, `X-WebKit-CSP: default-src` and
`access-control-allow-origin: https://site.test` under these spellings keeps
all three after fixResponseHeaders; a lookup of `X-Frame-Options` that ignores
letter case still finds `DENY`, and one of `Access-Control-Allow-Origin`
still finds the old origin. -/
theorem fixResponseHeaders_keeps_raw_names :
    ("x-frame-options".toList, ["DENY".toList]) ∈ (fixResponseHeaders rawNamesResponse).Header ∧
    ("X-WebKit-CSP".toList, ["default-src".toList])
      ∈ (fixResponseHeaders rawNamesResponse).Header ∧
    ("access-control-allow-origin".toList, ["https://site.test".toList])
      ∈ (fixResponseHeaders rawNamesResponse).Header ∧
    getHeader (fixResponseHeaders rawNamesResponse) "X-Frame-Options".toList
      = "DENY".toList ∧
    getHeader (fixResponseHeaders rawNamesResponse) "Access-Control-Allow-Origin".toList
      = "https://site.test".toList := by
  decide

/-- C11 (as the code has it): let the hook string be a non-empty payload
followed by `</head>`.  For every body that reads as a text containing
`</head>`, the injected body still contains the marker, and running
doScriptInjection again on the rebuilt response returns another replacement:
its body is the injected body with every `</head>` replaced by the hook
string once more, it contains the hook string and it is longer than the
injected body by the payload's length at least, so the two differ.  For the
page `<html><head></head><body></body></html>` and the payload
`<script>1</script>` the second body is
`<html><head><script>1</script><script>1</script></head><body></body></html>`. -/
theorem doScriptInjection_not_idempotent (p : HTTPProxy) (w : World) (res : Response)
    (cType html payload : GoString)
    (hread : (ioutil.ReadAll res.Body).2 = .ok html)
    (hmark : strings.Contains html "</head>".toList = true)
    (hhook : p.jsHook = payload ++ "</head>".toList)
    (hpay : payload ≠ []) :
    ∃ r1, (doScriptInjection p w res cType).newResp = some r1 ∧
      strings.Contains r1.Body.pending "</head>".toList = true ∧
      ∀ (w2 : World) (cType2 : GoString),
        ∃ r2, (doScriptInjection p w2 r1 cType2).newResp = some r2 ∧
          r2.Body.pending = strings.Replace r1.Body.pending "</head>".toList p.jsHook ∧
          strings.Contains r2.Body.pending p.jsHook = true ∧
          r1.Body.pending.length + payload.length ≤ r2.Body.pending.length ∧
          r2.Body.pending ≠ r1.Body.pending ∧
          (html = sampleHTML → payload = "<script>1</script>".toList →
            r2.Body.pending =
              "<html><head><script>1</script><script>1</script></head><body></body></html>".toList)
    := by
  have hm : "</head>".toList ≠ [] := by decide
  obtain ⟨hc1, hc2, hlen⟩ := strings.replaceLoop_again "</head>".toList payload html hm hmark
  rw [← strings.Replace_marker, ← strings.Replace_marker, ← hhook] at hc2 hlen
  rw [← strings.Replace_marker, ← hhook] at hc1
  obtain ⟨_, hnew1⟩ := doScriptInjection_ok p w res cType html hread hmark
  refine ⟨_, hnew1, hc1, ?_⟩
  intro w2 cType2
  obtain ⟨_, hnew2⟩ := doScriptInjection_ok p w2
    { goproxy.NewResponse res.Request cType res.StatusCode
        (strings.Replace html "</head>".toList p.jsHook) with
      Header := Header.merge res.Header
        (goproxy.NewResponse res.Request cType res.StatusCode
          (strings.Replace html "</head>".toList p.jsHook)).Header }
    cType2 (strings.Replace html "</head>".toList p.jsHook) rfl hc1
  refine ⟨_, hnew2, rfl, hc2, hlen, ?_, ?_⟩
  · intro heq
    have hl := congrArg List.length heq
    have hp : 0 < payload.length := List.length_pos.mpr hpay
    have hlen2 : (strings.Replace html "</head>".toList p.jsHook).length + payload.length
        ≤ (strings.Replace (strings.Replace html "</head>".toList p.jsHook)
            "</head>".toList p.jsHook).length := hlen
    have hl2 : (strings.Replace (strings.Replace html "</head>".toList p.jsHook)
        "</head>".toList p.jsHook).length
        = (strings.Replace html "</head>".toList p.jsHook).length := hl
    omega
  · intro hh hp
    show strings.Replace (strings.Replace html "</head>".toList p.jsHook)
        "</head>".toList p.jsHook = _
    rw [hhook, hh, hp]
    decide

/-- C11, witness: two runs on the specification's page with the hook string
`<script>1</script></head>`. -/
theorem doScriptInjection_not_idempotent_witness :
    (ioutil.ReadAll (htmlResponse sampleHTML).Body).2 = .ok sampleHTML ∧
    strings.Contains sampleHTML "</head>".toList = true ∧
    "<script>1</script>".toList ≠ [] ∧
    ∃ r1, (doScriptInjection (hookProxy "<script>1</script></head>".toList) World.empty
        (htmlResponse sampleHTML) "text/html".toList).newResp = some r1 ∧
      ∃ r2, (doScriptInjection (hookProxy "<script>1</script></head>".toList) World.empty
          r1 "text/html".toList).newResp = some r2 ∧
        r2.Body.pending =
          "<html><head><script>1</script><script>1</script></head><body></body></html>".toList
    := by
  refine ⟨rfl, by decide, by decide, ?_⟩
  obtain ⟨r1, h1, _, h2⟩ := doScriptInjection_not_idempotent
    (hookProxy "<script>1</script></head>".toList) World.empty (htmlResponse sampleHTML)
    "text/html".toList sampleHTML "<script>1</script>".toList rfl (by decide) rfl (by decide)
  obtain ⟨r2, h3, _, _, _, _, h4⟩ := h2 World.empty "text/html".toList
  exact ⟨r1, h1, r2, h3, h4 rfl rfl⟩

/-- C11, counterexample to the claim as stated: with the non-empty hook
payload `<script>1</script>` the body injected into
`<html><head></head><body></body></html>` no longer contains `</head>`, and a
second run of doScriptInjection on the rebuilt response returns no response. -/
theorem doScriptInjection_second_run_finds_no_marker :
    strings.Contains sampleHTML "</head>".toList = true ∧
    "<script>1</script>".toList ≠ [] ∧
    ((doScriptInjection (hookProxy "<script>1</script>".toList) World.empty
        (htmlResponse sampleHTML) "text/html".toList).newResp.map
          (fun r1 => strings.Contains r1.Body.pending "</head>".toList)) = some false ∧
    ((doScriptInjection (hookProxy "<script>1</script>".toList) World.empty
        (htmlResponse sampleHTML) "text/html".toList).newResp.bind
          (fun r1 => (doScriptInjection (hookProxy "<script>1</script>".toList) World.empty
            r1 "text/html".toList).newResp)) = none := by
  decide

end BetterCap
